import Mathlib

/-!
Verification of the `civil-time` crate's calendar core.

This file gives a shallow embedding, over `Int`, of the normalization
cascade (`src/core.rs`), the per-granularity step/difference/align
strategies (`src/granularity.rs`), the civil-time wrapper operations
(`src/lib.rs`), the comparison instances (`src/compare.rs`) and the
weekday engine (`src/weekday.rs`), and proves the specified properties
about them.

Rust's `/` and `%` on signed integers truncate toward zero; they are
modelled by `Int.tdiv` and `Int.tmod` throughout.  Field values that the
source stores in `i64`/`i8` are modelled as unbounded `Int` (the spec
places behaviour at the `i64` boundary out of contract).
-/

namespace CivilTime

/-- Bridge between truncated division (Rust `/`, `%`) and facts `omega`
understands: the defining identity, the bounds, and the sign behaviour of
`Int.tdiv` / `Int.tmod` for a positive divisor. -/
theorem tdiv_tmod_fact (a b : Int) (hb : 0 < b) :
    b * a.tdiv b + a.tmod b = a ∧ -b < a.tmod b ∧ a.tmod b < b ∧
    (0 ≤ a → 0 ≤ a.tmod b) ∧ (a ≤ 0 → a.tmod b ≤ 0) := by
  refine ⟨Int.tdiv_add_tmod a b, ?_, Int.tmod_lt_of_pos a hb, fun h => Int.tmod_nonneg b h, ?_⟩
  · rcases le_or_lt 0 a with h | h
    · have := Int.tmod_nonneg b h
      omega
    · have hneg : a.tmod b = -((-a).tmod b) := by
        have h1 : (-a).tmod b = -a - b * ((-a).tdiv b) := Int.tmod_def (-a) b
        have h2 : a.tmod b = a - b * (a.tdiv b) := Int.tmod_def a b
        rw [h1, h2, Int.neg_tdiv]
        ring
      have h3 : (-a).tmod b < b := Int.tmod_lt_of_pos (-a) hb
      omega
  · intro h
    rcases eq_or_lt_of_le h with h | h
    · rw [h, Int.zero_tmod]
    · have hneg : a.tmod b = -((-a).tmod b) := by
        have h1 : (-a).tmod b = -a - b * ((-a).tdiv b) := Int.tmod_def (-a) b
        have h2 : a.tmod b = a - b * (a.tdiv b) := Int.tmod_def a b
        rw [h1, h2, Int.neg_tdiv]
        ring
      have h3 : 0 ≤ (-a).tmod b := Int.tmod_nonneg b (by omega)
      omega

/-- `(b * x).tdiv b = x` for `b ≠ 0`; used for the `c4_diff / 400` step. -/
theorem mul_tdiv_cancel_left' (x b : Int) (hb : b ≠ 0) : (b * x).tdiv b = x :=
  Int.mul_tdiv_cancel_left x hb

/-! ## Calendar helpers (`src/core.rs`) -/

/-- `is_leap_year` in core.rs. -/
def is_leap_year (y : Int) : Bool :=
  y.tmod 4 == 0 && (y.tmod 100 != 0 || y.tmod 400 == 0)

/-- `year_index` in core.rs: the mod-400 index year.  The source returns a
`usize`; the value is in `[0, 399]` and is modelled as `Int`. -/
def year_index (y m : Int) : Int :=
  let yi := (y + if 2 < m then 1 else 0).tmod 400
  if yi < 0 then yi + 400 else yi

/-- `days_per_century` in core.rs. -/
def days_per_century (yi : Int) : Int :=
  36524 + if yi = 0 ∨ 300 < yi then 1 else 0

/-- `days_per_4years` in core.rs.  The source computes `(yi - 1) % 100` on
`usize` only after `yi == 0` has been ruled out by short-circuiting, so
using `Int.tmod` here agrees with it on every reachable `yi`. -/
def days_per_4years (yi : Int) : Int :=
  1460 + if yi = 0 ∨ 300 < yi ∨ (yi - 1).tmod 100 < 96 then 1 else 0

/-- `days_per_year` in core.rs. -/
def days_per_year (y m : Int) : Int :=
  if is_leap_year (y + if 2 < m then 1 else 0) then 366 else 365

/-- The non-leap part of `days_per_month` in core.rs (`DAYS_PER_MONTH`
table).  The source indexes a fixed 13-entry array and is only called
with `m ∈ [1, 12]`; out-of-range months (which would panic in the source)
default to 31 to keep the function total. -/
def days_per_month_nonleap (m : Int) : Int :=
  match m with
  | 1 => 31 | 2 => 28 | 3 => 31 | 4 => 30 | 5 => 31 | 6 => 30
  | 7 => 31 | 8 => 31 | 9 => 30 | 10 => 31 | 11 => 30 | 12 => 31
  | _ => 31

/-- `days_per_month` in core.rs. -/
def days_per_month (y m : Int) : Int :=
  days_per_month_nonleap m + if m = 2 ∧ is_leap_year y then 1 else 0

/-- Normalized civil-time fields `Y-M-D HH:MM:SS` (`Fields` in core.rs). -/
structure Fields where
  y : Int
  m : Int
  d : Int
  hh : Int
  mm : Int
  ss : Int
deriving DecidableEq, Repr

/-! ## Epoch ordinal and day difference (`src/granularity.rs`) -/

/-- `ymd_ord` in granularity.rs: maps a (normalized) Y/M/D to the number
of days before/after 1970-01-01. -/
def ymd_ord (y m d : Int) : Int :=
  let eyear := if m ≤ 2 then y - 1 else y
  let era := (if 0 ≤ eyear then eyear else eyear - 399).tdiv 400
  let yoe := eyear - era * 400
  let mp := m + (if 2 < m then -3 else 9)
  let doy := (153 * mp + 2).tdiv 5 + d - 1
  let doe := yoe * 365 + yoe.tdiv 4 - yoe.tdiv 100 + doy
  era * 146097 + doe - 719468

/-- `day_difference` in granularity.rs: the difference in days between two
normalized Y-M-D tuples, exploiting the 146097-day cycle to avoid
intermediate overflow. -/
def day_difference (y1 m1 d1 y2 m2 d2 : Int) : Int :=
  let a_c4_off := y1.tmod 400
  let b_c4_off := y2.tmod 400
  let c4_diff := (y1 - a_c4_off) - (y2 - b_c4_off)
  let delta := ymd_ord a_c4_off m1 d1 - ymd_ord b_c4_off m2 d2
  if 0 < c4_diff ∧ delta < 0 then
    ((c4_diff - 2 * 400).tdiv 400 * 146097) + (delta + 2 * 146097)
  else if c4_diff < 0 ∧ 0 < delta then
    ((c4_diff + 2 * 400).tdiv 400 * 146097) + (delta - 2 * 146097)
  else
    (c4_diff.tdiv 400 * 146097) + delta

/-- `scale_add` in granularity.rs: `(v * f + a)` avoiding intermediate
overflow. -/
def scale_add (v f a : Int) : Int :=
  if v < 0 then ((v + 1) * f + a) - f else ((v - 1) * f + a) + f

theorem scale_add_eq (v f a : Int) : scale_add v f a = v * f + a := by
  unfold scale_add
  split <;> ring

/-- The `era` computation of `ymd_ord` is floor division by 400. -/
theorem era_eq_ediv (e : Int) :
    (if 0 ≤ e then e else e - 399).tdiv 400 = e / 400 := by
  by_cases h : 0 ≤ e
  · rw [if_pos h, Int.tdiv_eq_ediv h (by norm_num)]
  · rw [if_neg h]
    have h1 : e - 399 = -(399 - e) := by ring
    rw [h1, Int.neg_tdiv, Int.tdiv_eq_ediv (by omega) (by norm_num)]
    omega

/-- The day-of-year month offset used by `ymd_ord`
(`(153 * mp + 2) / 5` over the March-based month permutation `mp`). -/
def doyc (m : Int) : Int :=
  (153 * (m + (if 2 < m then -3 else 9)) + 2).tdiv 5

/-- Closed ediv form of `ymd_ord`: with `e` the March-based year, the
ordinal is `365 e + ⌊e/4⌋ - ⌊e/100⌋ + ⌊e/400⌋ + doyc(m) + d - 1 - 719468`. -/
theorem ymd_ord_eq (y m d : Int) :
    ymd_ord y m d =
      365 * (if m ≤ 2 then y - 1 else y) + (if m ≤ 2 then y - 1 else y) / 4
        - (if m ≤ 2 then y - 1 else y) / 100 + (if m ≤ 2 then y - 1 else y) / 400
        + doyc m + d - 1 - 719468 := by
  have key : ∀ e : Int,
      ((if 0 ≤ e then e else e - 399).tdiv 400) * 146097 +
        ((e - (if 0 ≤ e then e else e - 399).tdiv 400 * 400) * 365 +
          (e - (if 0 ≤ e then e else e - 399).tdiv 400 * 400).tdiv 4 -
          (e - (if 0 ≤ e then e else e - 399).tdiv 400 * 400).tdiv 100) =
      365 * e + e / 4 - e / 100 + e / 400 := by
    intro e
    rw [era_eq_ediv]
    have hy : 0 ≤ e - e / 400 * 400 := by
      have := Int.emod_nonneg e (by norm_num : (400:Int) ≠ 0)
      omega
    rw [Int.tdiv_eq_ediv hy (by norm_num), Int.tdiv_eq_ediv hy (by norm_num)]
    omega
  simp only [ymd_ord, doyc]
  have h := key (if m ≤ 2 then y - 1 else y)
  omega

/-- `ymd_ord` is linear in the day argument. -/
theorem ymd_ord_d (y m d k : Int) : ymd_ord y m (d + k) = ymd_ord y m d + k := by
  rw [ymd_ord_eq, ymd_ord_eq]
  omega

/-- 400-year periodicity of `ymd_ord`: each Gregorian cycle is 146097
days. -/
theorem ymd_ord_400 (y m d k : Int) :
    ymd_ord (y + 400 * k) m d = ymd_ord y m d + 146097 * k := by
  rw [ymd_ord_eq, ymd_ord_eq]
  by_cases h : m ≤ 2 <;> simp only [h, if_true, if_false] <;> omega

theorem tmod_eq_zero_iff (a b : Int) : a.tmod b = 0 ↔ a % b = 0 := by
  rw [← Int.dvd_iff_tmod_eq_zero, Int.dvd_iff_emod_eq_zero]

/-- `is_leap_year` in terms of euclidean remainders. -/
theorem is_leap_emod (z : Int) :
    is_leap_year z = true ↔ (z % 4 = 0 ∧ (¬ z % 100 = 0 ∨ z % 400 = 0)) := by
  simp only [is_leap_year, Bool.and_eq_true, Bool.or_eq_true, beq_iff_eq, bne_iff_ne, ne_eq,
    tmod_eq_zero_iff]

/-- `year_index` in terms of the euclidean remainder. -/
theorem year_index_eq (y m : Int) :
    year_index y m = (y + if 2 < m then 1 else 0) % 400 := by
  simp only [year_index]
  generalize (y + if 2 < m then 1 else 0) = x
  have h := tdiv_tmod_fact x 400 (by norm_num)
  split <;> omega

/-- Concrete values of the day-of-year month offsets. -/
theorem doyc_vals :
    doyc 1 = 306 ∧ doyc 2 = 337 ∧ doyc 3 = 0 ∧ doyc 4 = 31 ∧ doyc 5 = 61 ∧
    doyc 6 = 92 ∧ doyc 7 = 122 ∧ doyc 8 = 153 ∧ doyc 9 = 184 ∧ doyc 10 = 214 ∧
    doyc 11 = 245 ∧ doyc 12 = 275 := by
  refine ⟨?_, ?_, ?_, ?_, ?_, ?_, ?_, ?_, ?_, ?_, ?_, ?_⟩ <;> decide

/-- Stepping `ymd_ord` by one civil year adds `days_per_year`.  Holds for
every integer month argument because both sides use the same March-based
year convention. -/
theorem ymd_ord_year (y m d : Int) :
    ymd_ord (y + 1) m d = ymd_ord y m d + days_per_year y m := by
  rw [ymd_ord_eq, ymd_ord_eq]
  unfold days_per_year
  by_cases hm : m ≤ 2
  · have hm' : ¬ 2 < m := by omega
    simp only [hm, hm', if_true, if_false, add_zero]
    by_cases hL : is_leap_year y = true
    · have hL' := hL
      rw [is_leap_emod] at hL'
      rw [if_pos hL]
      omega
    · have hL' := hL
      rw [is_leap_emod] at hL'
      rw [if_neg hL]
      omega
  · have hm' : 2 < m := by omega
    simp only [hm, hm', if_true, if_false]
    by_cases hL : is_leap_year (y + 1) = true
    · have hL' := hL
      rw [is_leap_emod] at hL'
      rw [if_pos hL]
      omega
    · have hL' := hL
      rw [is_leap_emod] at hL'
      rw [if_neg hL]
      omega

/-- Stepping `ymd_ord` by 100 years adds `days_per_century` at the
current mod-400 index year. -/
theorem ymd_ord_100 (y m d : Int) :
    ymd_ord (y + 100) m d = ymd_ord y m d + days_per_century (year_index y m) := by
  rw [ymd_ord_eq, ymd_ord_eq, year_index_eq]
  unfold days_per_century
  by_cases hm : m ≤ 2
  · have hm' : ¬ 2 < m := by omega
    simp only [hm, hm', if_true, if_false, add_zero]
    split <;> omega
  · have hm' : 2 < m := by omega
    simp only [hm, hm', if_true, if_false]
    split <;> omega

/-- Stepping `ymd_ord` by 4 years adds `days_per_4years` at the current
mod-400 index year. -/
theorem ymd_ord_4 (y m d : Int) :
    ymd_ord (y + 4) m d = ymd_ord y m d + days_per_4years (year_index y m) := by
  rw [ymd_ord_eq, ymd_ord_eq, year_index_eq]
  unfold days_per_4years
  have hb := tdiv_tmod_fact ((y + if 2 < m then 1 else 0) % 400 - 1) 100 (by norm_num)
  by_cases hm : m ≤ 2
  · have hm' : ¬ 2 < m := by omega
    simp only [hm, hm', if_true, if_false, add_zero] at hb ⊢
    split <;> omega
  · have hm' : 2 < m := by omega
    simp only [hm, hm', if_true, if_false] at hb ⊢
    split <;> omega

/-- Concrete `days_per_month` values per month. -/
theorem days_per_month_vals (y : Int) :
    days_per_month y 1 = 31 ∧ days_per_month y 3 = 31 ∧ days_per_month y 4 = 30 ∧
    days_per_month y 5 = 31 ∧ days_per_month y 6 = 30 ∧ days_per_month y 7 = 31 ∧
    days_per_month y 8 = 31 ∧ days_per_month y 9 = 30 ∧ days_per_month y 10 = 31 ∧
    days_per_month y 11 = 30 ∧ days_per_month y 12 = 31 ∧
    days_per_month y 2 = 28 + (if is_leap_year y = true then 1 else 0) := by
  unfold days_per_month days_per_month_nonleap
  norm_num

/-- Stepping `ymd_ord` by one month (within a year) adds
`days_per_month`. -/
theorem ymd_ord_month (y m d : Int) (h1 : 1 ≤ m) (h2 : m ≤ 11) :
    ymd_ord y (m + 1) d = ymd_ord y m d + days_per_month y m := by
  obtain ⟨c1, c2, c3, c4, c5, c6, c7, c8, c9, c10, c11, c12⟩ := doyc_vals
  obtain ⟨p1, p3, p4, p5, p6, p7, p8, p9, p10, p11, p12, p2⟩ := days_per_month_vals y
  interval_cases m <;>
    rw [ymd_ord_eq, ymd_ord_eq] <;>
    norm_num [c1, c2, c3, c4, c5, c6, c7, c8, c9, c10, c11, c12,
      p1, p2, p3, p4, p5, p6, p7, p8, p9, p10, p11, p12] <;>
    first
      | omega
      | (by_cases hL : is_leap_year y = true
         · have hL' := hL
           rw [is_leap_emod] at hL'
           rw [if_pos hL]
           omega
         · have hL' := hL
           rw [is_leap_emod] at hL'
           rw [if_neg hL]
           omega)

/-- Stepping `ymd_ord` from December into January of the next year adds
`days_per_month y 12 = 31`. -/
theorem ymd_ord_month_wrap (y d : Int) :
    ymd_ord (y + 1) 1 d = ymd_ord y 12 d + days_per_month y 12 := by
  obtain ⟨c1, _, _, _, _, _, _, _, _, _, _, c12⟩ := doyc_vals
  obtain ⟨_, _, _, _, _, _, _, _, _, _, p12, _⟩ := days_per_month_vals y
  rw [ymd_ord_eq, ymd_ord_eq, p12]
  norm_num [c1, c12]
  omega

/-- Bounds for the calendar helpers. -/
theorem days_per_century_bounds (yi : Int) :
    36524 ≤ days_per_century yi ∧ days_per_century yi ≤ 36525 := by
  unfold days_per_century
  split <;> omega

theorem days_per_4years_bounds (yi : Int) :
    1460 ≤ days_per_4years yi ∧ days_per_4years yi ≤ 1461 := by
  unfold days_per_4years
  split <;> omega

theorem days_per_year_bounds (y m : Int) :
    365 ≤ days_per_year y m ∧ days_per_year y m ≤ 366 := by
  unfold days_per_year
  split <;> omega

theorem days_per_month_bounds (y m : Int) :
    28 ≤ days_per_month y m ∧ days_per_month y m ≤ 31 := by
  have hnl : 28 ≤ days_per_month_nonleap m ∧ days_per_month_nonleap m ≤ 31 := by
    unfold days_per_month_nonleap
    split <;> omega
  unfold days_per_month
  by_cases hc : m = 2 ∧ is_leap_year y = true
  · rw [if_pos hc]
    obtain ⟨hm2, -⟩ := hc
    subst hm2
    have h28 : days_per_month_nonleap 2 = 28 := rfl
    omega
  · rw [if_neg hc]
    omega

/-- `days_per_month` only depends on the year modulo 400. -/
theorem days_per_month_400 (y m k : Int) :
    days_per_month (y + 400 * k) m = days_per_month y m := by
  unfold days_per_month
  have h1 := is_leap_emod (y + 400 * k)
  have h2 := is_leap_emod y
  have hiff : (is_leap_year (y + 400 * k) = true) ↔ (is_leap_year y = true) := by
    rw [h1, h2]
    constructor <;> intro h <;> omega
  by_cases hL : is_leap_year y = true
  · simp [hL, hiff.mpr hL]
  · have hL2 : ¬ is_leap_year (y + 400 * k) = true := fun h => hL (hiff.mp h)
    simp [hL, hL2]

/-- `day_difference` computes the exact ordinal difference: the mod-400
splitting plus the two-cycle rebalancing is lossless. -/
theorem day_difference_exact (y1 m1 d1 y2 m2 d2 : Int) :
    day_difference y1 m1 d1 y2 m2 d2 = ymd_ord y1 m1 d1 - ymd_ord y2 m2 d2 := by
  have t1 := tdiv_tmod_fact y1 400 (by norm_num)
  have t2 := tdiv_tmod_fact y2 400 (by norm_num)
  have e1 : ymd_ord (y1.tmod 400) m1 d1 = ymd_ord y1 m1 d1 - 146097 * y1.tdiv 400 := by
    have h := ymd_ord_400 (y1.tmod 400) m1 d1 (y1.tdiv 400)
    have h2 : y1.tmod 400 + 400 * y1.tdiv 400 = y1 := by omega
    rw [h2] at h
    omega
  have e2 : ymd_ord (y2.tmod 400) m2 d2 = ymd_ord y2 m2 d2 - 146097 * y2.tdiv 400 := by
    have h := ymd_ord_400 (y2.tmod 400) m2 d2 (y2.tdiv 400)
    have h2 : y2.tmod 400 + 400 * y2.tdiv 400 = y2 := by omega
    rw [h2] at h
    omega
  have hc4 : y1 - y1.tmod 400 - (y2 - y2.tmod 400) = 400 * (y1.tdiv 400 - y2.tdiv 400) := by
    omega
  simp only [day_difference, hc4, e1, e2]
  have q1 : (400 * (y1.tdiv 400 - y2.tdiv 400) - 2 * 400).tdiv 400 * 146097 =
      146097 * (y1.tdiv 400 - y2.tdiv 400) - 2 * 146097 := by
    have h : 400 * (y1.tdiv 400 - y2.tdiv 400) - 2 * 400 =
        400 * (y1.tdiv 400 - y2.tdiv 400 - 2) := by ring
    rw [h, mul_tdiv_cancel_left' _ 400 (by norm_num)]
    ring
  have q2 : (400 * (y1.tdiv 400 - y2.tdiv 400) + 2 * 400).tdiv 400 * 146097 =
      146097 * (y1.tdiv 400 - y2.tdiv 400) + 2 * 146097 := by
    have h : 400 * (y1.tdiv 400 - y2.tdiv 400) + 2 * 400 =
        400 * (y1.tdiv 400 - y2.tdiv 400 + 2) := by ring
    rw [h, mul_tdiv_cancel_left' _ 400 (by norm_num)]
    ring
  have q3 : (400 * (y1.tdiv 400 - y2.tdiv 400)).tdiv 400 * 146097 =
      146097 * (y1.tdiv 400 - y2.tdiv 400) := by
    rw [mul_tdiv_cancel_left' _ 400 (by norm_num)]
    ring
  split
  · rw [q1]
    ring
  · split
    · rw [q2]
      ring
    · rw [q3]
      ring

/-! ## The day-normalization cascade (`Fields::n_day` in core.rs) -/

/-- The century-chunk loop of `Fields::n_day`: consume
`days_per_century`-sized chunks while possible.  Returns `(d, ey, yi)`. -/
def centuryLoop (d ey yi : Int) : Int × Int × Int :=
  if d ≤ days_per_century yi then (d, ey, yi)
  else
    centuryLoop (d - days_per_century yi) (ey + 100)
      (if 400 ≤ yi + 100 then yi + 100 - 400 else yi + 100)
termination_by d.toNat
decreasing_by
  have := days_per_century_bounds yi
  omega

/-- The 4-year-chunk loop of `Fields::n_day`.  Returns `(d, ey, yi)`. -/
def fourYearLoop (d ey yi : Int) : Int × Int × Int :=
  if d ≤ days_per_4years yi then (d, ey, yi)
  else
    fourYearLoop (d - days_per_4years yi) (ey + 4)
      (if 400 ≤ yi + 4 then yi + 4 - 400 else yi + 4)
termination_by d.toNat
decreasing_by
  have := days_per_4years_bounds yi
  omega

/-- The single-year loop of `Fields::n_day`.  Returns `(d, ey)`. -/
def yearLoop (m d ey : Int) : Int × Int :=
  if d ≤ days_per_year ey m then (d, ey)
  else yearLoop m (d - days_per_year ey m) (ey + 1)
termination_by d.toNat
decreasing_by
  have := days_per_year_bounds ey m
  omega

/-- The month loop of `Fields::n_day`.  Returns `(ey, m, d)`. -/
def monthLoop (ey m d : Int) : Int × Int × Int :=
  if d ≤ days_per_month ey m then (ey, m, d)
  else
    if 12 < m + 1 then monthLoop (ey + 1) 1 (d - days_per_month ey m)
    else monthLoop ey (m + 1) (d - days_per_month ey m)
termination_by d.toNat
decreasing_by
  all_goals have := days_per_month_bounds ey m
  all_goals omega

/-- The `cd` folding block at the top of `Fields::n_day`:
`ey += (cd / 146097) * 400; cd %= 146097; if cd < 0 { ey -= 400; cd += 146097 }`.
Returns the updated `(ey, cd)`. -/
def n_day_cd (ey cd : Int) : Int × Int :=
  if cd.tmod 146097 < 0 then
    (ey + cd.tdiv 146097 * 400 - 400, cd.tmod 146097 + 146097)
  else (ey + cd.tdiv 146097 * 400, cd.tmod 146097)

/-- The `d` folding block of `Fields::n_day`:
`ey += (d / 146097) * 400; d = d % 146097 + cd;` followed by the
sign/magnitude adjustment (including the "previous year" special case).
Returns the updated `(ey, d)`. -/
def n_day_d (m ey d cd : Int) : Int × Int :=
  if 0 < d.tmod 146097 + cd then
    if 146097 < d.tmod 146097 + cd then
      (ey + d.tdiv 146097 * 400 + 400, d.tmod 146097 + cd - 146097)
    else (ey + d.tdiv 146097 * 400, d.tmod 146097 + cd)
  else
    if -365 < d.tmod 146097 + cd then
      (ey + d.tdiv 146097 * 400 - 1,
        d.tmod 146097 + cd + days_per_year (ey + d.tdiv 146097 * 400 - 1) m)
    else (ey + d.tdiv 146097 * 400 - 400, d.tmod 146097 + cd + 146097)

/-- The `if d > 365 { .. }` block of `Fields::n_day`: the
century / 4-year / single-year chunk loops.  Returns `(d, ey)`. -/
def n_day_big (m d ey : Int) : Int × Int :=
  if 365 < d then
    let c := centuryLoop d ey (year_index ey m)
    let f := fourYearLoop c.1 c.2.1 c.2.2
    yearLoop m f.1 f.2.1
  else (d, ey)

/-- `Fields::n_day` in core.rs: normalize a signed day delta `cd` against
the `(y, m, d)` anchor, working on the mod-400 shifted year `ey`. -/
def n_day (y m d cd hh mm ss : Int) : Fields :=
  let oey := y.tmod 400
  let p1 := n_day_cd oey cd
  let p2 := n_day_d m p1.1 d p1.2
  let p3 := n_day_big m p2.2 p2.1
  let p4 := if 28 < p3.1 then monthLoop p3.2 m p3.1 else (p3.2, m, p3.1)
  { y := y + (p4.1 - oey), m := p4.2.1, d := p4.2.2, hh := hh, mm := mm, ss := ss }

theorem centuryLoop_spec (m : Int) (d ey yi : Int) :
    yi = year_index ey m → 0 < d →
      ymd_ord (centuryLoop d ey yi).2.1 m (centuryLoop d ey yi).1 = ymd_ord ey m d ∧
      (centuryLoop d ey yi).2.2 = year_index (centuryLoop d ey yi).2.1 m ∧
      0 < (centuryLoop d ey yi).1 ∧
      (centuryLoop d ey yi).1 ≤ days_per_century (centuryLoop d ey yi).2.2 := by
  induction d, ey, yi using centuryLoop.induct with
  | case1 d ey yi h =>
    intro hyi hd
    rw [centuryLoop, if_pos h]
    exact ⟨rfl, hyi, hd, h⟩
  | case2 d ey yi h ih =>
    intro hyi hd
    rw [centuryLoop, if_neg h]
    simp only [dite_eq_ite] at ih
    have hb := days_per_century_bounds yi
    have hyi' : (if 400 ≤ yi + 100 then yi + 100 - 400 else yi + 100) =
        year_index (ey + 100) m := by
      rw [year_index_eq] at hyi ⊢
      split <;> omega
    have step : ymd_ord (ey + 100) m (d - days_per_century yi) = ymd_ord ey m d := by
      have h1 := ymd_ord_100 ey m (d - days_per_century yi)
      have h2 := ymd_ord_d ey m (d - days_per_century yi) (days_per_century yi)
      have h3 : d - days_per_century yi + days_per_century yi = d := by ring
      rw [h3] at h2
      rw [← hyi] at h1
      omega
    obtain ⟨i1, i2, i3, i4⟩ := ih hyi' (by omega)
    exact ⟨by rw [i1, step], i2, i3, i4⟩

theorem fourYearLoop_spec (m : Int) (d ey yi : Int) :
    yi = year_index ey m → 0 < d →
      ymd_ord (fourYearLoop d ey yi).2.1 m (fourYearLoop d ey yi).1 = ymd_ord ey m d ∧
      (fourYearLoop d ey yi).2.2 = year_index (fourYearLoop d ey yi).2.1 m ∧
      0 < (fourYearLoop d ey yi).1 ∧
      (fourYearLoop d ey yi).1 ≤ days_per_4years (fourYearLoop d ey yi).2.2 := by
  induction d, ey, yi using fourYearLoop.induct with
  | case1 d ey yi h =>
    intro hyi hd
    rw [fourYearLoop, if_pos h]
    exact ⟨rfl, hyi, hd, h⟩
  | case2 d ey yi h ih =>
    intro hyi hd
    rw [fourYearLoop, if_neg h]
    simp only [dite_eq_ite] at ih
    have hb := days_per_4years_bounds yi
    have hyi' : (if 400 ≤ yi + 4 then yi + 4 - 400 else yi + 4) =
        year_index (ey + 4) m := by
      rw [year_index_eq] at hyi ⊢
      split <;> omega
    have step : ymd_ord (ey + 4) m (d - days_per_4years yi) = ymd_ord ey m d := by
      have h1 := ymd_ord_4 ey m (d - days_per_4years yi)
      have h2 := ymd_ord_d ey m (d - days_per_4years yi) (days_per_4years yi)
      have h3 : d - days_per_4years yi + days_per_4years yi = d := by ring
      rw [h3] at h2
      rw [← hyi] at h1
      omega
    obtain ⟨i1, i2, i3, i4⟩ := ih hyi' (by omega)
    exact ⟨by rw [i1, step], i2, i3, i4⟩

theorem yearLoop_spec (m : Int) (d ey : Int) :
    0 < d →
      ymd_ord (yearLoop m d ey).2 m (yearLoop m d ey).1 = ymd_ord ey m d ∧
      0 < (yearLoop m d ey).1 ∧
      (yearLoop m d ey).1 ≤ days_per_year (yearLoop m d ey).2 m := by
  induction d, ey using yearLoop.induct m with
  | case1 d ey h =>
    intro hd
    rw [yearLoop, if_pos h]
    exact ⟨rfl, hd, h⟩
  | case2 d ey h ih =>
    intro hd
    rw [yearLoop, if_neg h]
    have hb := days_per_year_bounds ey m
    have step : ymd_ord (ey + 1) m (d - days_per_year ey m) = ymd_ord ey m d := by
      have h1 := ymd_ord_year ey m (d - days_per_year ey m)
      have h2 := ymd_ord_d ey m (d - days_per_year ey m) (days_per_year ey m)
      have h3 : d - days_per_year ey m + days_per_year ey m = d := by ring
      rw [h3] at h2
      omega
    obtain ⟨i1, i2, i3⟩ := ih (by omega)
    exact ⟨by rw [i1, step], i2, i3⟩

theorem monthLoop_spec (ey m d : Int) :
    1 ≤ m → m ≤ 12 → 0 < d →
      ymd_ord (monthLoop ey m d).1 (monthLoop ey m d).2.1 (monthLoop ey m d).2.2 =
        ymd_ord ey m d ∧
      1 ≤ (monthLoop ey m d).2.1 ∧ (monthLoop ey m d).2.1 ≤ 12 ∧
      0 < (monthLoop ey m d).2.2 ∧
      (monthLoop ey m d).2.2 ≤ days_per_month (monthLoop ey m d).1 (monthLoop ey m d).2.1 := by
  induction ey, m, d using monthLoop.induct with
  | case1 ey m d h =>
    intro hm1 hm2 hd
    rw [monthLoop, if_pos h]
    exact ⟨rfl, hm1, hm2, hd, h⟩
  | case2 ey m d h hw ih =>
    intro hm1 hm2 hd
    rw [monthLoop, if_neg h, if_pos hw]
    have hb := days_per_month_bounds ey m
    have hm12 : m = 12 := by omega
    subst hm12
    have step : ymd_ord (ey + 1) 1 (d - days_per_month ey 12) = ymd_ord ey 12 d := by
      have h1 := ymd_ord_month_wrap ey (d - days_per_month ey 12)
      have h2 := ymd_ord_d ey 12 (d - days_per_month ey 12) (days_per_month ey 12)
      have h3 : d - days_per_month ey 12 + days_per_month ey 12 = d := by ring
      rw [h3] at h2
      omega
    obtain ⟨i1, i2, i3, i4, i5⟩ := ih (by omega) (by omega) (by omega)
    exact ⟨by rw [i1, step], i2, i3, i4, i5⟩
  | case3 ey m d h hw ih =>
    intro hm1 hm2 hd
    rw [monthLoop, if_neg h, if_neg hw]
    have hb := days_per_month_bounds ey m
    have step : ymd_ord ey (m + 1) (d - days_per_month ey m) = ymd_ord ey m d := by
      have h1 := ymd_ord_month ey m (d - days_per_month ey m) hm1 (by omega)
      have h2 := ymd_ord_d ey m (d - days_per_month ey m) (days_per_month ey m)
      have h3 : d - days_per_month ey m + days_per_month ey m = d := by ring
      rw [h3] at h2
      omega
    obtain ⟨i1, i2, i3, i4, i5⟩ := ih (by omega) (by omega) (by omega)
    exact ⟨by rw [i1, step], i2, i3, i4, i5⟩

/-- Stepping back one year and compensating with that year's day count
leaves the ordinal unchanged. -/
theorem ymd_ord_back_year (z m dd : Int) :
    ymd_ord (z - 1) m (dd + days_per_year (z - 1) m) = ymd_ord z m dd := by
  have h1 := ymd_ord_year (z - 1) m (dd + days_per_year (z - 1) m)
  have h2 : z - 1 + 1 = z := by ring
  rw [h2] at h1
  have h3 := ymd_ord_d z m dd (days_per_year (z - 1) m)
  omega

theorem n_day_cd_spec (m dd ey cd : Int) :
    ymd_ord (n_day_cd ey cd).1 m dd + (n_day_cd ey cd).2 = ymd_ord ey m dd + cd ∧
    0 ≤ (n_day_cd ey cd).2 ∧ (n_day_cd ey cd).2 < 146097 := by
  have t := tdiv_tmod_fact cd 146097 (by norm_num)
  unfold n_day_cd
  split <;>
    (dsimp only
     refine ⟨?_, by omega, by omega⟩
     rw [ymd_ord_eq, ymd_ord_eq]
     rcases le_or_lt m 2 with hm | hm
     · simp only [if_pos hm]
       omega
     · simp only [if_neg (by omega : ¬ m ≤ 2)]
       omega)

theorem n_day_d_spec (m ey d cd : Int) (h1 : 0 ≤ cd) (h2 : cd < 146097) :
    ymd_ord (n_day_d m ey d cd).1 m (n_day_d m ey d cd).2 = ymd_ord ey m d + cd ∧
    0 < (n_day_d m ey d cd).2 := by
  have t := tdiv_tmod_fact d 146097 (by norm_num)
  unfold n_day_d
  split
  · split <;>
      (dsimp only
       refine ⟨?_, by omega⟩
       rw [ymd_ord_eq, ymd_ord_eq]
       rcases le_or_lt m 2 with hm | hm
       · simp only [if_pos hm]
         omega
       · simp only [if_neg (by omega : ¬ m ≤ 2)]
         omega)
  · split
    · dsimp only
      have hdy := days_per_year_bounds (ey + d.tdiv 146097 * 400 - 1) m
      refine ⟨?_, by omega⟩
      rw [ymd_ord_back_year]
      rw [ymd_ord_eq, ymd_ord_eq]
      rcases le_or_lt m 2 with hm | hm
      · simp only [if_pos hm]
        omega
      · simp only [if_neg (by omega : ¬ m ≤ 2)]
        omega
    · dsimp only
      refine ⟨?_, by omega⟩
      rw [ymd_ord_eq, ymd_ord_eq]
      rcases le_or_lt m 2 with hm | hm
      · simp only [if_pos hm]
        omega
      · simp only [if_neg (by omega : ¬ m ≤ 2)]
        omega

theorem n_day_big_spec (m d ey : Int) (hd : 0 < d) :
    ymd_ord (n_day_big m d ey).2 m (n_day_big m d ey).1 = ymd_ord ey m d ∧
    0 < (n_day_big m d ey).1 := by
  unfold n_day_big
  split
  · dsimp only
    obtain ⟨a1, a2, a3, a4⟩ := centuryLoop_spec m d ey (year_index ey m) rfl hd
    obtain ⟨b1, b2, b3, b4⟩ := fourYearLoop_spec m _ _ _ a2 a3
    obtain ⟨c1, c2, c3⟩ := yearLoop_spec m _ _ b3
    refine ⟨?_, c2⟩
    rw [c1, b1, a1]
  · exact ⟨rfl, hd⟩

/-- Main specification of `Fields::n_day`: for a canonical month anchor,
the result is a canonical date whose epoch ordinal is the anchor's
ordinal plus the day delta `cd`, and the time-of-day fields pass through
untouched. -/
theorem n_day_spec (y m d cd hh mm ss : Int) (hm1 : 1 ≤ m) (hm2 : m ≤ 12) :
    ymd_ord (n_day y m d cd hh mm ss).y (n_day y m d cd hh mm ss).m
        (n_day y m d cd hh mm ss).d = ymd_ord y m d + cd ∧
    1 ≤ (n_day y m d cd hh mm ss).m ∧ (n_day y m d cd hh mm ss).m ≤ 12 ∧
    1 ≤ (n_day y m d cd hh mm ss).d ∧
    (n_day y m d cd hh mm ss).d ≤
      days_per_month (n_day y m d cd hh mm ss).y (n_day y m d cd hh mm ss).m ∧
    (n_day y m d cd hh mm ss).hh = hh ∧ (n_day y m d cd hh mm ss).mm = mm ∧
    (n_day y m d cd hh mm ss).ss = ss := by
  have ty := tdiv_tmod_fact y 400 (by norm_num)
  obtain ⟨A1, A2, A3⟩ := n_day_cd_spec m d (y.tmod 400) cd
  obtain ⟨B1, B2⟩ :=
    n_day_d_spec m (n_day_cd (y.tmod 400) cd).1 d (n_day_cd (y.tmod 400) cd).2 A2 A3
  obtain ⟨C1, C2⟩ :=
    n_day_big_spec m
      (n_day_d m (n_day_cd (y.tmod 400) cd).1 d (n_day_cd (y.tmod 400) cd).2).2
      (n_day_d m (n_day_cd (y.tmod 400) cd).1 d (n_day_cd (y.tmod 400) cd).2).1 B2
  have hy0 : ymd_ord y m d = ymd_ord (y.tmod 400) m d + 146097 * y.tdiv 400 := by
    have h := ymd_ord_400 (y.tmod 400) m d (y.tdiv 400)
    have h2 : y.tmod 400 + 400 * y.tdiv 400 = y := by omega
    rw [h2] at h
    omega
  have hshift : ∀ P mm2 dd2 : Int,
      ymd_ord (y + (P - y.tmod 400)) mm2 dd2 = ymd_ord P mm2 dd2 + 146097 * y.tdiv 400 := by
    intro P mm2 dd2
    have h := ymd_ord_400 P mm2 dd2 (y.tdiv 400)
    have h2 : P + 400 * y.tdiv 400 = y + (P - y.tmod 400) := by omega
    rw [h2] at h
    exact h
  have hdpm : ∀ P mm2 : Int,
      days_per_month (y + (P - y.tmod 400)) mm2 = days_per_month P mm2 := by
    intro P mm2
    have h := days_per_month_400 P mm2 (y.tdiv 400)
    have h2 : P + 400 * y.tdiv 400 = y + (P - y.tmod 400) := by omega
    rw [h2] at h
    exact h
  simp only [n_day]
  split
  · obtain ⟨M1, M2, M3, M4, M5⟩ :=
      monthLoop_spec
        (n_day_big m
          (n_day_d m (n_day_cd (y.tmod 400) cd).1 d (n_day_cd (y.tmod 400) cd).2).2
          (n_day_d m (n_day_cd (y.tmod 400) cd).1 d (n_day_cd (y.tmod 400) cd).2).1).2
        m
        (n_day_big m
          (n_day_d m (n_day_cd (y.tmod 400) cd).1 d (n_day_cd (y.tmod 400) cd).2).2
          (n_day_d m (n_day_cd (y.tmod 400) cd).1 d (n_day_cd (y.tmod 400) cd).2).1).1
        hm1 hm2 (by omega)
    refine ⟨?_, M2, M3, by omega, ?_, trivial, trivial, trivial⟩
    · rw [hshift]
      omega
    · rw [hdpm]
      exact M5
  · dsimp only
    refine ⟨?_, hm1, hm2, by omega, ?_, trivial, trivial, trivial⟩
    · rw [hshift]
      omega
    · rw [hdpm]
      have := days_per_month_bounds
        (n_day_big m
          (n_day_d m (n_day_cd (y.tmod 400) cd).1 d (n_day_cd (y.tmod 400) cd).2).2
          (n_day_d m (n_day_cd (y.tmod 400) cd).1 d (n_day_cd (y.tmod 400) cd).2).1).2 m
      omega

/-! ## The remaining normalizers (`Fields::n_mon` … `n_sec` in core.rs) -/

/-- `Fields::n_mon` in core.rs: carry out-of-range months into the year
(with the `m == 12` early exit), then delegate to `n_day`. -/
def n_mon (y m d cd hh mm ss : Int) : Fields :=
  if m ≠ 12 then
    if m.tmod 12 ≤ 0 then n_day (y + m.tdiv 12 - 1) (m.tmod 12 + 12) d cd hh mm ss
    else n_day (y + m.tdiv 12) (m.tmod 12) d cd hh mm ss
  else n_day y m d cd hh mm ss

/-- The year produced by the month-carry block of `n_mon`. -/
def n_mon_y (y m : Int) : Int :=
  if m ≠ 12 then
    if m.tmod 12 ≤ 0 then y + m.tdiv 12 - 1 else y + m.tdiv 12
  else y

/-- The month produced by the month-carry block of `n_mon`. -/
def n_mon_m (m : Int) : Int :=
  if m ≠ 12 then
    if m.tmod 12 ≤ 0 then m.tmod 12 + 12 else m.tmod 12
  else m

/-- `Fields::n_hour` in core.rs. -/
def n_hour (y m d cd hh mm ss : Int) : Fields :=
  if hh.tmod 24 < 0 then n_mon y m d (cd + hh.tdiv 24 - 1) (hh.tmod 24 + 24) mm ss
  else n_mon y m d (cd + hh.tdiv 24) (hh.tmod 24) mm ss

/-- `Fields::n_min` in core.rs. -/
def n_min (y m d hh ch mm ss : Int) : Fields :=
  if mm.tmod 60 < 0 then
    n_hour y m d (hh.tdiv 24 + (ch + mm.tdiv 60 - 1).tdiv 24)
      (hh.tmod 24 + (ch + mm.tdiv 60 - 1).tmod 24) (mm.tmod 60 + 60) ss
  else
    n_hour y m d (hh.tdiv 24 + (ch + mm.tdiv 60).tdiv 24)
      (hh.tmod 24 + (ch + mm.tdiv 60).tmod 24) (mm.tmod 60) ss

/-- `Fields::n_sec` in core.rs, including the already-normalized fast
path. -/
def n_sec (y m d hh mm ss : Int) : Fields :=
  if 0 ≤ ss ∧ ss < 60 then
    if 0 ≤ mm ∧ mm < 60 then
      if 0 ≤ hh ∧ hh < 24 then
        if 1 ≤ d ∧ d ≤ 28 ∧ 1 ≤ m ∧ m ≤ 12 then
          { y := y, m := m, d := d, hh := hh, mm := mm, ss := ss }
        else n_mon y m d 0 hh mm ss
      else n_hour y m d (hh.tdiv 24) (hh.tmod 24) mm ss
    else n_min y m d hh (mm.tdiv 60) (mm.tmod 60) ss
  else
    if ss.tmod 60 < 0 then
      n_min y m d hh (mm.tdiv 60 + (ss.tdiv 60 - 1).tdiv 60)
        (mm.tmod 60 + (ss.tdiv 60 - 1).tmod 60) (ss.tmod 60 + 60)
    else
      n_min y m d hh (mm.tdiv 60 + (ss.tdiv 60).tdiv 60)
        (mm.tmod 60 + (ss.tdiv 60).tmod 60) (ss.tmod 60)

/-- The month-carry block of `n_mon` produces the canonical month pair:
the combined month count `12 * Y + M` is preserved and `M ∈ [1, 12]`. -/
theorem n_mon_char (y m : Int) :
    1 ≤ n_mon_m m ∧ n_mon_m m ≤ 12 ∧ 12 * n_mon_y y m + n_mon_m m = 12 * y + m := by
  have t := tdiv_tmod_fact m 12 (by norm_num)
  unfold n_mon_m n_mon_y
  by_cases h12 : m ≠ 12
  · rw [if_pos h12, if_pos h12]
    split <;> omega
  · rw [if_neg h12, if_neg h12]
    omega

theorem n_mon_eq_n_day (y m d cd hh mm ss : Int) :
    n_mon y m d cd hh mm ss = n_day (n_mon_y y m) (n_mon_m m) d cd hh mm ss := by
  unfold n_mon n_mon_y n_mon_m
  by_cases h12 : m ≠ 12
  · rw [if_pos h12, if_pos h12, if_pos h12]
    split <;> rfl
  · rw [if_neg h12, if_neg h12, if_neg h12]

/-- If the month is already canonical, the month-carry block is the
identity. -/
theorem n_mon_id (y m : Int) (h1 : 1 ≤ m) (h2 : m ≤ 12) :
    n_mon_y y m = y ∧ n_mon_m m = m := by
  have h := n_mon_char y m
  omega

/-- Specification of `Fields::n_mon`: canonical output whose ordinal is
the ordinal of the month-normalized anchor plus the day delta. -/
theorem n_mon_spec (y m d cd hh mm ss : Int) :
    ymd_ord (n_mon y m d cd hh mm ss).y (n_mon y m d cd hh mm ss).m
        (n_mon y m d cd hh mm ss).d = ymd_ord (n_mon_y y m) (n_mon_m m) d + cd ∧
    1 ≤ (n_mon y m d cd hh mm ss).m ∧ (n_mon y m d cd hh mm ss).m ≤ 12 ∧
    1 ≤ (n_mon y m d cd hh mm ss).d ∧
    (n_mon y m d cd hh mm ss).d ≤
      days_per_month (n_mon y m d cd hh mm ss).y (n_mon y m d cd hh mm ss).m ∧
    (n_mon y m d cd hh mm ss).hh = hh ∧ (n_mon y m d cd hh mm ss).mm = mm ∧
    (n_mon y m d cd hh mm ss).ss = ss := by
  have hc := n_mon_char y m
  rw [n_mon_eq_n_day]
  exact n_day_spec (n_mon_y y m) (n_mon_m m) d cd hh mm ss (by omega) (by omega)

/-! ## Canonical fields and linear values -/

/-- A canonical Gregorian date triple. -/
def canonicalDate (y m d : Int) : Prop :=
  1 ≤ m ∧ m ≤ 12 ∧ 1 ≤ d ∧ d ≤ days_per_month y m

/-- Fully canonical fields: the invariant maintained by every `Fields`
value the library constructs. -/
def canonical (f : Fields) : Prop :=
  canonicalDate f.y f.m f.d ∧ 0 ≤ f.hh ∧ f.hh < 24 ∧ 0 ≤ f.mm ∧ f.mm < 60 ∧
    0 ≤ f.ss ∧ f.ss < 60

instance (y m d : Int) : Decidable (canonicalDate y m d) := by
  unfold canonicalDate
  infer_instance

instance (f : Fields) : Decidable (canonical f) := by
  unfold canonical
  infer_instance

/-- Epoch day ordinal of a fields value. -/
def dval (f : Fields) : Int := ymd_ord f.y f.m f.d

/-- Epoch hour count of a fields value. -/
def hval (f : Fields) : Int := 24 * dval f + f.hh

/-- Epoch minute count of a fields value. -/
def mval (f : Fields) : Int := 60 * hval f + f.mm

/-- Epoch second count of a fields value. -/
def sval (f : Fields) : Int := 60 * mval f + f.ss

/-- Specification of `Fields::n_hour`. -/
theorem n_hour_spec (y m d cd hh mm ss : Int) :
    hval (n_hour y m d cd hh mm ss) =
      24 * (ymd_ord (n_mon_y y m) (n_mon_m m) d + cd) + hh ∧
    canonicalDate (n_hour y m d cd hh mm ss).y (n_hour y m d cd hh mm ss).m
      (n_hour y m d cd hh mm ss).d ∧
    0 ≤ (n_hour y m d cd hh mm ss).hh ∧ (n_hour y m d cd hh mm ss).hh < 24 ∧
    (n_hour y m d cd hh mm ss).mm = mm ∧ (n_hour y m d cd hh mm ss).ss = ss := by
  have t := tdiv_tmod_fact hh 24 (by norm_num)
  unfold n_hour hval dval canonicalDate
  split
  · obtain ⟨s1, s2, s3, s4, s5, s6, s7, s8⟩ :=
      n_mon_spec y m d (cd + hh.tdiv 24 - 1) (hh.tmod 24 + 24) mm ss
    refine ⟨?_, ⟨s2, s3, s4, s5⟩, by omega, by omega, s7, s8⟩
    rw [s1, s6]
    omega
  · obtain ⟨s1, s2, s3, s4, s5, s6, s7, s8⟩ :=
      n_mon_spec y m d (cd + hh.tdiv 24) (hh.tmod 24) mm ss
    refine ⟨?_, ⟨s2, s3, s4, s5⟩, by omega, by omega, s7, s8⟩
    rw [s1, s6]
    omega

/-- Specification of `Fields::n_min`. -/
theorem n_min_spec (y m d hh ch mm ss : Int) :
    mval (n_min y m d hh ch mm ss) =
      60 * (24 * ymd_ord (n_mon_y y m) (n_mon_m m) d + hh + ch) + mm ∧
    canonicalDate (n_min y m d hh ch mm ss).y (n_min y m d hh ch mm ss).m
      (n_min y m d hh ch mm ss).d ∧
    0 ≤ (n_min y m d hh ch mm ss).hh ∧ (n_min y m d hh ch mm ss).hh < 24 ∧
    0 ≤ (n_min y m d hh ch mm ss).mm ∧ (n_min y m d hh ch mm ss).mm < 60 ∧
    (n_min y m d hh ch mm ss).ss = ss := by
  have t := tdiv_tmod_fact mm 60 (by norm_num)
  have th := tdiv_tmod_fact hh 24 (by norm_num)
  unfold n_min mval
  split
  · have tc := tdiv_tmod_fact (ch + mm.tdiv 60 - 1) 24 (by norm_num)
    obtain ⟨s1, s2, s3, s4, s5, s6⟩ :=
      n_hour_spec y m d (hh.tdiv 24 + (ch + mm.tdiv 60 - 1).tdiv 24)
        (hh.tmod 24 + (ch + mm.tdiv 60 - 1).tmod 24) (mm.tmod 60 + 60) ss
    refine ⟨?_, s2, s3, s4, by omega, by omega, s6⟩
    rw [s5, s1]
    omega
  · have tc := tdiv_tmod_fact (ch + mm.tdiv 60) 24 (by norm_num)
    obtain ⟨s1, s2, s3, s4, s5, s6⟩ :=
      n_hour_spec y m d (hh.tdiv 24 + (ch + mm.tdiv 60).tdiv 24)
        (hh.tmod 24 + (ch + mm.tdiv 60).tmod 24) (mm.tmod 60) ss
    refine ⟨?_, s2, s3, s4, by omega, by omega, s6⟩
    rw [s5, s1]
    omega

/-- Specification of `Fields::n_sec`: the output is canonical and its
epoch second count is the linear combination of the (month-normalized)
inputs. -/
theorem n_sec_spec (y m d hh mm ss : Int) :
    sval (n_sec y m d hh mm ss) =
      86400 * ymd_ord (n_mon_y y m) (n_mon_m m) d + 3600 * hh + 60 * mm + ss ∧
    canonical (n_sec y m d hh mm ss) := by
  have t := tdiv_tmod_fact ss 60 (by norm_num)
  have tm := tdiv_tmod_fact mm 60 (by norm_num)
  unfold n_sec sval canonical
  split
  · split
    · split
      · split
        · -- fast path: fields already normalized
          obtain ⟨hy, hm⟩ := n_mon_id y m (by omega) (by omega)
          have hdp := days_per_month_bounds y m
          rw [hy, hm]
          unfold mval hval dval canonicalDate
          dsimp only
          constructor
          · have hl := ymd_ord_d y m 0 d
            omega
          · refine ⟨⟨by omega, by omega, by omega, by omega⟩, by omega, by omega,
              by omega, by omega, by omega, by omega⟩
        · obtain ⟨s1, s2, s3, s4, s5, s6, s7, s8⟩ := n_mon_spec y m d 0 hh mm ss
          unfold mval hval dval canonicalDate
          rw [s1, s6, s7, s8]
          exact ⟨by omega, ⟨s2, s3, s4, s5⟩, by omega, by omega, by omega, by omega,
            by omega, by omega⟩
      · have th := tdiv_tmod_fact hh 24 (by norm_num)
        obtain ⟨s1, s2, s3, s4, s5, s6⟩ :=
          n_hour_spec y m d (hh.tdiv 24) (hh.tmod 24) mm ss
        unfold mval
        rw [s5, s6, s1]
        unfold canonicalDate at s2
        refine ⟨by omega, ⟨by omega, by omega, by omega, by omega⟩,
          s3, s4, by omega, by omega, by omega, by omega⟩
    · obtain ⟨s1, s2, s3, s4, s5, s6, s7⟩ :=
        n_min_spec y m d hh (mm.tdiv 60) (mm.tmod 60) ss
      rw [s7, s1]
      unfold canonicalDate at s2
      refine ⟨by omega, ⟨by omega, by omega, by omega, by omega⟩,
        s3, s4, s5, s6, by omega, by omega⟩
  · split
    · obtain ⟨s1, s2, s3, s4, s5, s6, s7⟩ :=
        n_min_spec y m d hh (mm.tdiv 60 + (ss.tdiv 60 - 1).tdiv 60)
          (mm.tmod 60 + (ss.tdiv 60 - 1).tmod 60) (ss.tmod 60 + 60)
      have tc := tdiv_tmod_fact (ss.tdiv 60 - 1) 60 (by norm_num)
      rw [s7, s1]
      unfold canonicalDate at s2
      refine ⟨by omega, ⟨by omega, by omega, by omega, by omega⟩,
        s3, s4, s5, s6, by omega, by omega⟩
    · obtain ⟨s1, s2, s3, s4, s5, s6, s7⟩ :=
        n_min_spec y m d hh (mm.tdiv 60 + (ss.tdiv 60).tdiv 60)
          (mm.tmod 60 + (ss.tdiv 60).tmod 60) (ss.tmod 60)
      have tc := tdiv_tmod_fact (ss.tdiv 60) 60 (by norm_num)
      rw [s7, s1]
      unfold canonicalDate at s2
      refine ⟨by omega, ⟨by omega, by omega, by omega, by omega⟩,
        s3, s4, s5, s6, by omega, by omega⟩

/-! ## Injectivity of the ordinal on canonical dates -/

/-- `ymd_ord` in terms of the first of the month. -/
theorem ymd_ord_lin (y m d : Int) : ymd_ord y m d = ymd_ord y m 1 + (d - 1) := by
  have h := ymd_ord_d y m 1 (d - 1)
  have h2 : 1 + (d - 1) = d := by ring
  rw [h2] at h
  omega

/-- The ordinal of the first of the month is monotone in the month within
a year. -/
theorem monthOrd_mono (y a b : Int) (ha : 1 ≤ a) (hab : a ≤ b) (hb : b ≤ 12) :
    ymd_ord y a 1 ≤ ymd_ord y b 1 := by
  have H : ∀ bb, a ≤ bb → bb ≤ 12 → ymd_ord y a 1 ≤ ymd_ord y bb 1 := by
    intro bb hle
    refine Int.le_induction
      (P := fun bb => bb ≤ 12 → ymd_ord y a 1 ≤ ymd_ord y bb 1) (m := a) ?_ ?_ bb hle
    · intro _
      exact le_refl _
    · intro n hn ih hn12
      have hstep := ymd_ord_month y n 1 (by omega) (by omega)
      have hdp := days_per_month_bounds y n
      have := ih (by omega)
      omega
  exact H b hab hb

/-- Within one civil year the ordinal stays between January 1 of that
year and January 1 of the next. -/
theorem ymd_ord_in_year (y m d : Int) (hc : canonicalDate y m d) :
    ymd_ord y 1 1 ≤ ymd_ord y m d ∧ ymd_ord y m d < ymd_ord (y + 1) 1 1 := by
  obtain ⟨h1, h2, h3, h4⟩ := hc
  have hlin := ymd_ord_lin y m d
  have hlo := monthOrd_mono y 1 m (by omega) (by omega) (by omega)
  have hwrap := ymd_ord_month_wrap y 1
  have hdp := days_per_month_bounds y m
  have hdp12 := days_per_month_bounds y 12
  by_cases hm12 : m = 12
  · subst hm12
    omega
  · have hstep := ymd_ord_month y m 1 (by omega) (by omega)
    have hhi := monthOrd_mono y (m + 1) 12 (by omega) (by omega) (by omega)
    omega

/-- The January-1 ordinal is strictly monotone in the year, with gap at
least 365. -/
theorem yearOrd_mono (a b : Int) (hab : a ≤ b) :
    ymd_ord a 1 1 ≤ ymd_ord b 1 1 ∧ (a < b → ymd_ord a 1 1 + 365 ≤ ymd_ord b 1 1) := by
  refine Int.le_induction
    (P := fun b => ymd_ord a 1 1 ≤ ymd_ord b 1 1 ∧
      (a < b → ymd_ord a 1 1 + 365 ≤ ymd_ord b 1 1)) (m := a) ?_ ?_ b hab
  · exact ⟨le_refl _, by omega⟩
  · intro n hn ih
    have hstep := ymd_ord_year n 1 1
    have hdy := days_per_year_bounds n 1
    constructor
    · omega
    · intro _
      omega

/-- The epoch ordinal is injective on canonical dates. -/
theorem ymd_ord_inj (y1 m1 d1 y2 m2 d2 : Int)
    (h1 : canonicalDate y1 m1 d1) (h2 : canonicalDate y2 m2 d2)
    (he : ymd_ord y1 m1 d1 = ymd_ord y2 m2 d2) : y1 = y2 ∧ m1 = m2 ∧ d1 = d2 := by
  have hy : y1 = y2 := by
    rcases lt_trichotomy y1 y2 with hlt | heq | hgt
    · exfalso
      have b1 := ymd_ord_in_year y1 m1 d1 h1
      have b2 := ymd_ord_in_year y2 m2 d2 h2
      have hm := yearOrd_mono (y1 + 1) y2 (by omega)
      omega
    · exact heq
    · exfalso
      have b1 := ymd_ord_in_year y1 m1 d1 h1
      have b2 := ymd_ord_in_year y2 m2 d2 h2
      have hm := yearOrd_mono (y2 + 1) y1 (by omega)
      omega
  subst hy
  obtain ⟨a1, a2, a3, a4⟩ := h1
  obtain ⟨b1, b2, b3, b4⟩ := h2
  have hm : m1 = m2 := by
    rcases lt_trichotomy m1 m2 with hlt | heq | hgt
    · exfalso
      have l1 := ymd_ord_lin y1 m1 d1
      have l2 := ymd_ord_lin y1 m2 d2
      have hstep := ymd_ord_month y1 m1 1 (by omega) (by omega)
      have hmono := monthOrd_mono y1 (m1 + 1) m2 (by omega) (by omega) (by omega)
      omega
    · exact heq
    · exfalso
      have l1 := ymd_ord_lin y1 m1 d1
      have l2 := ymd_ord_lin y1 m2 d2
      have hstep := ymd_ord_month y1 m2 1 (by omega) (by omega)
      have hmono := monthOrd_mono y1 (m2 + 1) m1 (by omega) (by omega) (by omega)
      omega
  subst hm
  have l1 := ymd_ord_lin y1 m1 d1
  have l2 := ymd_ord_lin y1 m1 d2
  exact ⟨rfl, rfl, by omega⟩

/-- Canonical fields with equal epoch second counts are equal. -/
theorem canonical_inj (f g : Fields) (hf : canonical f) (hg : canonical g)
    (h : sval f = sval g) : f = g := by
  obtain ⟨fd, fh1, fh2, fm1, fm2, fs1, fs2⟩ := hf
  obtain ⟨gd, gh1, gh2, gm1, gm2, gs1, gs2⟩ := hg
  unfold sval mval hval at h
  have hcomp : dval f = dval g ∧ f.hh = g.hh ∧ f.mm = g.mm ∧ f.ss = g.ss := by
    omega
  obtain ⟨hdv, hh, hm, hs⟩ := hcomp
  unfold dval at hdv
  obtain ⟨e1, e2, e3⟩ := ymd_ord_inj f.y f.m f.d g.y g.m g.d fd gd hdv
  obtain ⟨fy, fm, fdd, fhh, fmm, fss⟩ := f
  obtain ⟨gy, gm, gdd, ghh, gmm, gss⟩ := g
  simp only at e1 e2 e3 hh hm hs
  simp [e1, e2, e3, hh, hm, hs]

/-! ## Granularity strategies (`src/granularity.rs`) -/

/-- `Year::step`. -/
def Year.step (f : Fields) (n : Int) : Fields := { f with y := f.y + n }

/-- `Year::difference`. -/
def Year.difference (f1 f2 : Fields) : Int := f1.y - f2.y

/-- `Year::align`. -/
def Year.align (f : Fields) : Fields := { y := f.y, m := 1, d := 1, hh := 0, mm := 0, ss := 0 }

/-- `Month::step`. -/
def Month.step (f : Fields) (n : Int) : Fields :=
  n_mon (f.y + n.tdiv 12) (f.m + n.tmod 12) f.d 0 f.hh f.mm f.ss

/-- `Month::difference`. -/
def Month.difference (f1 f2 : Fields) : Int :=
  scale_add (Year.difference f1 f2) 12 (f1.m - f2.m)

/-- `Month::align`. -/
def Month.align (f : Fields) : Fields :=
  { y := f.y, m := f.m, d := 1, hh := 0, mm := 0, ss := 0 }

/-- `Day::step`. -/
def Day.step (f : Fields) (n : Int) : Fields := n_day f.y f.m f.d n f.hh f.mm f.ss

/-- `Day::difference`. -/
def Day.difference (f1 f2 : Fields) : Int :=
  day_difference f1.y f1.m f1.d f2.y f2.m f2.d

/-- `Day::align`. -/
def Day.align (f : Fields) : Fields :=
  { y := f.y, m := f.m, d := f.d, hh := 0, mm := 0, ss := 0 }

/-- `Hour::step`. -/
def Hour.step (f : Fields) (n : Int) : Fields :=
  n_hour f.y f.m (f.d + n.tdiv 24) 0 (f.hh + n.tmod 24) f.mm f.ss

/-- `Hour::difference`. -/
def Hour.difference (f1 f2 : Fields) : Int :=
  scale_add (Day.difference f1 f2) 24 (f1.hh - f2.hh)

/-- `Hour::align`. -/
def Hour.align (f : Fields) : Fields :=
  { y := f.y, m := f.m, d := f.d, hh := f.hh, mm := 0, ss := 0 }

/-- `Minute::step`. -/
def Minute.step (f : Fields) (n : Int) : Fields :=
  n_min f.y f.m f.d (f.hh + n.tdiv 60) 0 (f.mm + n.tmod 60) f.ss

/-- `Minute::difference`. -/
def Minute.difference (f1 f2 : Fields) : Int :=
  scale_add (Hour.difference f1 f2) 60 (f1.mm - f2.mm)

/-- `Minute::align`. -/
def Minute.align (f : Fields) : Fields :=
  { y := f.y, m := f.m, d := f.d, hh := f.hh, mm := f.mm, ss := 0 }

/-- `Second::step`. -/
def Second.step (f : Fields) (n : Int) : Fields :=
  n_sec f.y f.m f.d f.hh (f.mm + n.tdiv 60) (f.ss + n.tmod 60)

/-- `Second::difference`. -/
def Second.difference (f1 f2 : Fields) : Int :=
  scale_add (Minute.difference f1 f2) 60 (f1.ss - f2.ss)

/-- `Second::align`. -/
def Second.align (f : Fields) : Fields := f

/-- The six alignment tags (the `$Alignment` parameter of
`impl_civil_time_type!` in lib.rs). -/
inductive Align where
  | second
  | minute
  | hour
  | day
  | month
  | year
deriving DecidableEq, Repr

/-- Dispatch `step` over the six granularity strategies. -/
def stepF : Align → Fields → Int → Fields
  | .second => Second.step
  | .minute => Minute.step
  | .hour => Hour.step
  | .day => Day.step
  | .month => Month.step
  | .year => Year.step

/-- Dispatch `difference` over the six granularity strategies. -/
def differenceF : Align → Fields → Fields → Int
  | .second => Second.difference
  | .minute => Minute.difference
  | .hour => Hour.difference
  | .day => Day.difference
  | .month => Month.difference
  | .year => Year.difference

/-- Dispatch `align` over the six granularity strategies. -/
def alignF : Align → Fields → Fields
  | .second => Second.align
  | .minute => Minute.align
  | .hour => Hour.align
  | .day => Day.align
  | .month => Month.align
  | .year => Year.align

/-- The linear "value in units of the alignment" of a fields value:
seconds / minutes / hours / days since the epoch, months since month 0,
or the year itself. -/
def alignVal : Align → Fields → Int
  | .second => sval
  | .minute => mval
  | .hour => hval
  | .day => dval
  | .month => fun f => 12 * f.y + f.m
  | .year => fun f => f.y

/-- Every granularity's `difference` computes the difference of the
corresponding linear values, for arbitrary fields. -/
theorem differenceF_eq (al : Align) (f1 f2 : Fields) :
    differenceF al f1 f2 = alignVal al f1 - alignVal al f2 := by
  have hday : Day.difference f1 f2 = dval f1 - dval f2 := by
    unfold Day.difference dval
    exact day_difference_exact f1.y f1.m f1.d f2.y f2.m f2.d
  cases al
  · show Second.difference f1 f2 = sval f1 - sval f2
    unfold Second.difference Minute.difference Hour.difference
    rw [scale_add_eq, scale_add_eq, scale_add_eq, hday]
    unfold sval mval hval
    ring
  · show Minute.difference f1 f2 = mval f1 - mval f2
    unfold Minute.difference Hour.difference
    rw [scale_add_eq, scale_add_eq, hday]
    unfold mval hval
    ring
  · show Hour.difference f1 f2 = hval f1 - hval f2
    unfold Hour.difference
    rw [scale_add_eq, hday]
    unfold hval
    ring
  · exact hday
  · show Month.difference f1 f2 = (12 * f1.y + f1.m) - (12 * f2.y + f2.m)
    unfold Month.difference Year.difference
    rw [scale_add_eq]
    ring
  · show Year.difference f1 f2 = f1.y - f2.y
    rfl

/-- The fields a given alignment pins to their minimum value. -/
def isPinned : Align → Fields → Prop
  | .second => fun _ => True
  | .minute => fun f => f.ss = 0
  | .hour => fun f => f.mm = 0 ∧ f.ss = 0
  | .day => fun f => f.hh = 0 ∧ f.mm = 0 ∧ f.ss = 0
  | .month => fun f => f.d = 1 ∧ f.hh = 0 ∧ f.mm = 0 ∧ f.ss = 0
  | .year => fun f => f.m = 1 ∧ f.d = 1 ∧ f.hh = 0 ∧ f.mm = 0 ∧ f.ss = 0

instance (al : Align) (f : Fields) : Decidable (isPinned al f) := by
  cases al <;> (unfold isPinned; infer_instance)

/-- A canonical civil value of the given alignment. -/
def aligned (al : Align) (f : Fields) : Prop := canonical f ∧ isPinned al f

instance (al : Align) (f : Fields) : Decidable (aligned al f) := by
  unfold aligned
  infer_instance

/-- `align` pins every inferior field to its minimum. -/
theorem alignF_pinned (al : Align) (f : Fields) : isPinned al (alignF al f) := by
  cases al <;> simp [alignF, isPinned, Second.align, Minute.align, Hour.align, Day.align,
    Month.align, Year.align]

/-- `align` is the identity on already-pinned fields. -/
theorem alignF_id (al : Align) (f : Fields) (h : isPinned al f) : alignF al f = f := by
  obtain ⟨fy, fm, fd, fhh, fmm, fss⟩ := f
  cases al <;>
    simp_all [alignF, isPinned, Second.align, Minute.align, Hour.align, Day.align,
      Month.align, Year.align]

/-- `align` preserves canonicality. -/
theorem alignF_canonical (al : Align) (f : Fields) (h : canonical f) :
    canonical (alignF al f) := by
  obtain ⟨⟨h1, h2, h3, h4⟩, h5, h6, h7, h8, h9, h10⟩ := h
  have hb := days_per_month_bounds f.y f.m
  have hb1 := days_per_month_bounds f.y 1
  cases al <;>
    (refine ⟨⟨?_, ?_, ?_, ?_⟩, ?_, ?_, ?_, ?_, ?_, ?_⟩ <;>
      simp [alignF, Second.align, Minute.align, Hour.align, Day.align, Month.align,
        Year.align] <;> omega)

/-- Specification of `step` for every alignment: on an aligned canonical
value it produces an aligned canonical value and advances the linear
value by exactly `n`. -/
theorem stepF_spec (al : Align) (f : Fields) (n : Int) (hc : canonical f)
    (hp : isPinned al f) :
    canonical (stepF al f n) ∧ isPinned al (stepF al f n) ∧
    alignVal al (stepF al f n) = alignVal al f + n := by
  obtain ⟨⟨c1, c2, c3, c4⟩, c5, c6, c7, c8, c9, c10⟩ := hc
  cases al
  case second =>
    have t := tdiv_tmod_fact n 60 (by norm_num)
    obtain ⟨hy, hm⟩ := n_mon_id f.y f.m c1 c2
    obtain ⟨s1, s2⟩ := n_sec_spec f.y f.m f.d f.hh (f.mm + n.tdiv 60) (f.ss + n.tmod 60)
    rw [hy, hm] at s1
    refine ⟨s2, trivial, ?_⟩
    show sval (Second.step f n) = sval f + n
    unfold Second.step
    rw [s1]
    unfold sval mval hval dval
    omega
  case minute =>
    simp only [stepF, Minute.step, alignVal, isPinned]
    have hp' : f.ss = 0 := hp
    have t := tdiv_tmod_fact n 60 (by norm_num)
    obtain ⟨hy, hm⟩ := n_mon_id f.y f.m c1 c2
    obtain ⟨s1, s2, s3, s4, s5, s6, s7⟩ :=
      n_min_spec f.y f.m f.d (f.hh + n.tdiv 60) 0 (f.mm + n.tmod 60) f.ss
    rw [hy, hm] at s1
    refine ⟨⟨s2, s3, s4, s5, s6, by omega, by omega⟩, by omega, ?_⟩
    rw [s1]
    unfold mval hval dval
    omega
  case hour =>
    simp only [stepF, Hour.step, alignVal, isPinned]
    have hp' : f.mm = 0 ∧ f.ss = 0 := hp
    have t := tdiv_tmod_fact n 24 (by norm_num)
    obtain ⟨hy, hm⟩ := n_mon_id f.y f.m c1 c2
    obtain ⟨s1, s2, s3, s4, s5, s6⟩ :=
      n_hour_spec f.y f.m (f.d + n.tdiv 24) 0 (f.hh + n.tmod 24) f.mm f.ss
    rw [hy, hm] at s1
    have hl := ymd_ord_d f.y f.m f.d (n.tdiv 24)
    obtain ⟨d1, d2, d3, d4⟩ := s2
    refine ⟨⟨⟨d1, d2, d3, d4⟩, s3, s4, by omega, by omega, by omega, by omega⟩,
      ⟨by omega, by omega⟩, ?_⟩
    rw [s1]
    unfold hval dval
    omega
  case day =>
    simp only [stepF, Day.step, alignVal, isPinned]
    have hp' : f.hh = 0 ∧ f.mm = 0 ∧ f.ss = 0 := hp
    obtain ⟨s1, s2, s3, s4, s5, s6, s7, s8⟩ := n_day_spec f.y f.m f.d n f.hh f.mm f.ss c1 c2
    refine ⟨⟨⟨s2, s3, s4, s5⟩, by omega, by omega, by omega, by omega, by omega, by omega⟩,
      ⟨by omega, by omega, by omega⟩, ?_⟩
    unfold dval
    omega
  case month =>
    simp only [stepF, Month.step, alignVal, isPinned]
    have hp' : f.d = 1 ∧ f.hh = 0 ∧ f.mm = 0 ∧ f.ss = 0 := hp
    have t := tdiv_tmod_fact n 12 (by norm_num)
    obtain ⟨s1, s2, s3, s4, s5, s6, s7, s8⟩ :=
      n_mon_spec (f.y + n.tdiv 12) (f.m + n.tmod 12) f.d 0 f.hh f.mm f.ss
    obtain ⟨e1, e2, e3⟩ := n_mon_char (f.y + n.tdiv 12) (f.m + n.tmod 12)
    have hoo : ymd_ord (n_mon_y (f.y + n.tdiv 12) (f.m + n.tmod 12))
        (n_mon_m (f.m + n.tmod 12)) f.d =
        ymd_ord (n_mon_y (f.y + n.tdiv 12) (f.m + n.tmod 12))
          (n_mon_m (f.m + n.tmod 12)) 1 := by
      rw [hp'.1]
    have hT : canonicalDate (n_mon_y (f.y + n.tdiv 12) (f.m + n.tmod 12))
        (n_mon_m (f.m + n.tmod 12)) 1 := by
      have := days_per_month_bounds (n_mon_y (f.y + n.tdiv 12) (f.m + n.tmod 12))
        (n_mon_m (f.m + n.tmod 12))
      exact ⟨by omega, by omega, by omega, by omega⟩
    obtain ⟨j1, j2, j3⟩ :=
      ymd_ord_inj _ _ _ _ _ _ ⟨s2, s3, s4, s5⟩ hT (by omega)
    refine ⟨⟨⟨s2, s3, s4, s5⟩, by omega, by omega, by omega, by omega, by omega, by omega⟩,
      ⟨by omega, by omega, by omega, by omega⟩, by omega⟩
  case year =>
    have hp' : f.m = 1 ∧ f.d = 1 ∧ f.hh = 0 ∧ f.mm = 0 ∧ f.ss = 0 := hp
    obtain ⟨p1, _⟩ := days_per_month_vals (f.y + n)
    have hstep : stepF Align.year f n =
        { y := f.y + n, m := f.m, d := f.d, hh := f.hh, mm := f.mm, ss := f.ss } := rfl
    rw [hstep]
    refine ⟨⟨⟨(by omega : (1:Int) ≤ f.m), (by omega : f.m ≤ 12), (by omega : (1:Int) ≤ f.d),
      (show f.d ≤ days_per_month (f.y + n) f.m by rw [hp'.2.1, hp'.1, p1]; omega)⟩,
      c5, c6, c7, c8, c9, c10⟩,
      ⟨hp'.1, hp'.2.1, hp'.2.2.1, hp'.2.2.2.1, hp'.2.2.2.2⟩, rfl⟩

/-- Aligned canonical values with the same linear value are equal. -/
theorem alignVal_inj (al : Align) (f g : Fields) (hf : aligned al f) (hg : aligned al g)
    (h : alignVal al f = alignVal al g) : f = g := by
  obtain ⟨hfc, hfp⟩ := hf
  obtain ⟨hgc, hgp⟩ := hg
  cases al
  case second => exact canonical_inj f g hfc hgc h
  case minute =>
    have hfp' : f.ss = 0 := hfp
    have hgp' : g.ss = 0 := hgp
    refine canonical_inj f g hfc hgc ?_
    have h' : mval f = mval g := h
    unfold sval
    omega
  case hour =>
    have hfp' : f.mm = 0 ∧ f.ss = 0 := hfp
    have hgp' : g.mm = 0 ∧ g.ss = 0 := hgp
    refine canonical_inj f g hfc hgc ?_
    have h' : hval f = hval g := h
    unfold sval mval
    omega
  case day =>
    have hfp' : f.hh = 0 ∧ f.mm = 0 ∧ f.ss = 0 := hfp
    have hgp' : g.hh = 0 ∧ g.mm = 0 ∧ g.ss = 0 := hgp
    refine canonical_inj f g hfc hgc ?_
    have h' : dval f = dval g := h
    unfold sval mval hval
    omega
  case month =>
    have hfp' : f.d = 1 ∧ f.hh = 0 ∧ f.mm = 0 ∧ f.ss = 0 := hfp
    have hgp' : g.d = 1 ∧ g.hh = 0 ∧ g.mm = 0 ∧ g.ss = 0 := hgp
    have h' : 12 * f.y + f.m = 12 * g.y + g.m := h
    obtain ⟨⟨f1, f2, f3, f4⟩, -, -, -, -, -, -⟩ := hfc
    obtain ⟨⟨g1, g2, g3, g4⟩, -, -, -, -, -, -⟩ := hgc
    have hy : f.y = g.y ∧ f.m = g.m := by omega
    obtain ⟨fy, fm, fd, fhh, fmm, fss⟩ := f
    obtain ⟨gy, gm, gd, ghh, gmm, gss⟩ := g
    simp only at hy hfp' hgp'
    simp [hy.1, hy.2, hfp'.1, hfp'.2.1, hfp'.2.2.1, hfp'.2.2.2, hgp'.1, hgp'.2.1,
      hgp'.2.2.1, hgp'.2.2.2]
  case year =>
    have hfp' : f.m = 1 ∧ f.d = 1 ∧ f.hh = 0 ∧ f.mm = 0 ∧ f.ss = 0 := hfp
    have hgp' : g.m = 1 ∧ g.d = 1 ∧ g.hh = 0 ∧ g.mm = 0 ∧ g.ss = 0 := hgp
    have h' : f.y = g.y := h
    obtain ⟨fy, fm, fd, fhh, fmm, fss⟩ := f
    obtain ⟨gy, gm, gd, ghh, gmm, gss⟩ := g
    simp only at h' hfp' hgp'
    simp [h', hfp'.1, hfp'.2.1, hfp'.2.2.1, hfp'.2.2.2.1, hfp'.2.2.2.2, hgp'.1, hgp'.2.1,
      hgp'.2.2.1, hgp'.2.2.2.1, hgp'.2.2.2.2]

/-! ## Civil-time wrapper operations (`src/lib.rs`) -/

/-- `DiffType::MIN`: the most negative value of the 64-bit scalar type. -/
def DiffTypeMin : Int := -9223372036854775808

/-- `from_fields` in the `impl_civil_time_type!` macro of lib.rs:
construct a value of the given alignment by aligning normalized fields. -/
def from_fields (al : Align) (f : Fields) : Fields := alignF al f

/-- `from_ymd_hms` in lib.rs: normalize the six raw integers, then align. -/
def from_ymd_hms (al : Align) (y m d hh mm ss : Int) : Fields :=
  from_fields al (n_sec y m d hh mm ss)

/-- `CivilSecond::new` … `CivilYear::new` in lib.rs: trailing fields
default to the unit's minimum. -/
def newSecond (y m d hh mm ss : Int) : Fields := from_ymd_hms .second y m d hh mm ss

def newMinute (y m d hh mm : Int) : Fields := from_ymd_hms .minute y m d hh mm 0

def newHour (y m d hh : Int) : Fields := from_ymd_hms .hour y m d hh 0 0

def newDay (y m d : Int) : Fields := from_ymd_hms .day y m d 0 0 0

def newMonth (y m : Int) : Fields := from_ymd_hms .month y m 1 0 0 0

def newYear (y : Int) : Fields := from_ymd_hms .year y 1 1 0 0 0

/-- `default()` via `Builder::new()`: year 1970, all inferior fields at
their minimum. -/
def defaultCivil (al : Align) : Fields := from_ymd_hms al 1970 1 1 0 0 0

/-- The `From<Other>` realignment conversions in convert.rs:
`Self::from_fields(other.0)`, no renormalization. -/
def realign (al : Align) (f : Fields) : Fields := from_fields al f

/-- `add_diff` in lib.rs. -/
def add_diff (al : Align) (f : Fields) (n : Int) : Fields :=
  from_fields al (stepF al f n)

/-- `sub_diff` in lib.rs, with the special two-step decomposition for
`n = DiffType::MIN`. -/
def sub_diff (al : Align) (f : Fields) (n : Int) : Fields :=
  if n ≠ DiffTypeMin then from_fields al (stepF al f (-n))
  else from_fields al (stepF al (stepF al f (-(n + 1))) 1)

/-- `add_diff` on an aligned value is `step`, stays aligned, and advances
the linear value by `n`. -/
theorem add_diff_spec (al : Align) (f : Fields) (n : Int) (h : aligned al f) :
    aligned al (add_diff al f n) ∧
    alignVal al (add_diff al f n) = alignVal al f + n := by
  obtain ⟨hc, hp⟩ := h
  obtain ⟨s1, s2, s3⟩ := stepF_spec al f n hc hp
  unfold add_diff from_fields
  rw [alignF_id al _ s2]
  exact ⟨⟨s1, s2⟩, s3⟩

/-- `sub_diff` on an aligned value stays aligned and retreats the linear
value by `n` — including for `n = DiffType::MIN`, where the two-step
decomposition is used. -/
theorem sub_diff_spec (al : Align) (f : Fields) (n : Int) (h : aligned al f) :
    aligned al (sub_diff al f n) ∧
    alignVal al (sub_diff al f n) = alignVal al f - n := by
  obtain ⟨hc, hp⟩ := h
  unfold sub_diff from_fields
  split
  · obtain ⟨s1, s2, s3⟩ := stepF_spec al f (-n) hc hp
    rw [alignF_id al _ s2]
    exact ⟨⟨s1, s2⟩, by omega⟩
  · obtain ⟨s1, s2, s3⟩ := stepF_spec al f (-(n + 1)) hc hp
    obtain ⟨u1, u2, u3⟩ := stepF_spec al (stepF al f (-(n + 1))) 1 s1 s2
    rw [alignF_id al _ u2]
    exact ⟨⟨u1, u2⟩, by omega⟩

/-! ## The weekday engine (`src/weekday.rs`) -/

/-- `Weekday` in weekday.rs. -/
inductive Weekday where
  | mon
  | tue
  | wed
  | thu
  | fri
  | sat
  | sun
deriving DecidableEq, Repr

/-- `WEEKDAY_BY_MON_OFF` in `Weekday::from_second`. -/
def WEEKDAY_BY_MON_OFF : List Weekday :=
  [.mon, .tue, .wed, .thu, .fri, .sat, .sun, .mon, .tue, .wed, .thu, .fri, .sat]

/-- `WEEKDAY_OFFSETS` in `Weekday::from_second`. -/
def WEEKDAY_OFFSETS : List Int := [-1, 0, 3, 2, 5, 0, 3, 5, 1, 4, 6, 2, 4]

/-- `Weekday::from_second` in weekday.rs: the closed-form weekday
congruence over the year/month/day fields. -/
def from_second (f : Fields) : Weekday :=
  let wd0 := 2400 + f.y.tmod 400 - (if f.m < 3 then 1 else 0)
  let wd1 := wd0 + wd0.tdiv 4 - wd0.tdiv 100 + wd0.tdiv 400
  let wd2 := wd1 + WEEKDAY_OFFSETS.getD f.m.toNat 0 + f.d
  WEEKDAY_BY_MON_OFF.getD (wd2.tmod 7 + 6).toNat .mon

/-- `weekday()` in the `impl_civil_time_type!` macro of lib.rs:
`Weekday::from_second(CivilSecond::from_fields(self.0))`. -/
def weekdayF (f : Fields) : Weekday := from_second (from_fields .second f)

/-- Monday-first week used to phrase the weekday congruence. -/
def WEEK : List Weekday := [.mon, .tue, .wed, .thu, .fri, .sat, .sun]

/-- Numeric index of a weekday, Monday = 0. -/
def wdIdx : Weekday → Int
  | .mon => 0
  | .tue => 1
  | .wed => 2
  | .thu => 3
  | .fri => 4
  | .sat => 5
  | .sun => 6

/-- The weekday of the day `k` days after the epoch (1970-01-01 was a
Thursday, index 3). -/
def wdOfOrd (k : Int) : Weekday := WEEK.getD ((k + 3) % 7).toNat .mon

theorem wdIdx_WEEK (k : Int) : wdIdx (WEEK.getD (k % 7).toNat .mon) = k % 7 := by
  have h : k % 7 = 0 ∨ k % 7 = 1 ∨ k % 7 = 2 ∨ k % 7 = 3 ∨ k % 7 = 4 ∨ k % 7 = 5 ∨
      k % 7 = 6 := by omega
  rcases h with h | h | h | h | h | h | h <;> rw [h] <;> decide

theorem wdIdx_inj (a b : Weekday) (h : wdIdx a = wdIdx b) : a = b := by
  cases a <;> cases b <;> first | rfl | (exfalso; revert h; decide)

/-- The final table lookup of `from_second` agrees with the Monday-first
week indexed by the shifted remainder. -/
theorem table_cong (a b : Int) (ha : 0 ≤ a) (h : (a - 1) % 7 = b % 7) :
    WEEKDAY_BY_MON_OFF.getD (a.tmod 7 + 6).toNat .mon = WEEK.getD (b % 7).toNat .mon := by
  have h7 : a.tmod 7 = a % 7 := Int.tmod_eq_emod ha (by norm_num)
  rw [h7]
  have hcase : a % 7 = 0 ∨ a % 7 = 1 ∨ a % 7 = 2 ∨ a % 7 = 3 ∨ a % 7 = 4 ∨ a % 7 = 5 ∨
      a % 7 = 6 := by omega
  rcases hcase with hc | hc | hc | hc | hc | hc | hc
  · rw [hc, show b % 7 = 6 by omega]
    decide
  · rw [hc, show b % 7 = 0 by omega]
    decide
  · rw [hc, show b % 7 = 1 by omega]
    decide
  · rw [hc, show b % 7 = 2 by omega]
    decide
  · rw [hc, show b % 7 = 3 by omega]
    decide
  · rw [hc, show b % 7 = 4 by omega]
    decide
  · rw [hc, show b % 7 = 5 by omega]
    decide

/-- Values of `WEEKDAY_OFFSETS` at the canonical months. -/
theorem offs_vals :
    WEEKDAY_OFFSETS.getD ((1:Int).toNat) 0 = 0 ∧ WEEKDAY_OFFSETS.getD ((2:Int).toNat) 0 = 3 ∧
    WEEKDAY_OFFSETS.getD ((3:Int).toNat) 0 = 2 ∧ WEEKDAY_OFFSETS.getD ((4:Int).toNat) 0 = 5 ∧
    WEEKDAY_OFFSETS.getD ((5:Int).toNat) 0 = 0 ∧ WEEKDAY_OFFSETS.getD ((6:Int).toNat) 0 = 3 ∧
    WEEKDAY_OFFSETS.getD ((7:Int).toNat) 0 = 5 ∧ WEEKDAY_OFFSETS.getD ((8:Int).toNat) 0 = 1 ∧
    WEEKDAY_OFFSETS.getD ((9:Int).toNat) 0 = 4 ∧ WEEKDAY_OFFSETS.getD ((10:Int).toNat) 0 = 6 ∧
    WEEKDAY_OFFSETS.getD ((11:Int).toNat) 0 = 2 ∧ WEEKDAY_OFFSETS.getD ((12:Int).toNat) 0 = 4 := by
  refine ⟨?_, ?_, ?_, ?_, ?_, ?_, ?_, ?_, ?_, ?_, ?_, ?_⟩ <;> decide

/-- `weekday()` only aligns at second granularity, which is the identity. -/
theorem weekdayF_eq (f : Fields) : weekdayF f = from_second f := rfl

/-- The weekday computation agrees with the epoch ordinal modulo 7
(1970-01-01, ordinal 0, is a Thursday). -/
theorem from_second_eq (f : Fields) (h1 : 1 ≤ f.m) (h2 : f.m ≤ 12) (h3 : 1 ≤ f.d) :
    from_second f = wdOfOrd (dval f) := by
  obtain ⟨fy, fm, fd, fhh, fmm, fss⟩ := f
  have h1' : 1 ≤ fm := h1
  have h2' : fm ≤ 12 := h2
  have h3' : 1 ≤ fd := h3
  have ty := tdiv_tmod_fact fy 400 (by norm_num)
  obtain ⟨c1, c2, c3, c4, c5, c6, c7, c8, c9, c10, c11, c12⟩ := doyc_vals
  obtain ⟨o1, o2, o3, o4, o5, o6, o7, o8, o9, o10, o11, o12⟩ := offs_vals
  have hb1 : (0:Int) ≤ 2400 + fy.tmod 400 - 1 := by omega
  have hb0 : (0:Int) ≤ 2400 + fy.tmod 400 - 0 := by omega
  have e41 := Int.tdiv_eq_ediv hb1 (show (0:Int) ≤ 4 by norm_num)
  have e1001 := Int.tdiv_eq_ediv hb1 (show (0:Int) ≤ 100 by norm_num)
  have e4001 := Int.tdiv_eq_ediv hb1 (show (0:Int) ≤ 400 by norm_num)
  have e40 := Int.tdiv_eq_ediv hb0 (show (0:Int) ≤ 4 by norm_num)
  have e1000 := Int.tdiv_eq_ediv hb0 (show (0:Int) ≤ 100 by norm_num)
  have e4000 := Int.tdiv_eq_ediv hb0 (show (0:Int) ≤ 400 by norm_num)
  have s41 : (2400 + fy.tmod 400 - 1) / 4 = (fy - 1) / 4 + 100 * (6 - fy.tdiv 400) := by
    omega
  have s1001 : (2400 + fy.tmod 400 - 1) / 100 = (fy - 1) / 100 + 4 * (6 - fy.tdiv 400) := by
    omega
  have s4001 : (2400 + fy.tmod 400 - 1) / 400 = (fy - 1) / 400 + (6 - fy.tdiv 400) := by
    omega
  have s40 : (2400 + fy.tmod 400 - 0) / 4 = fy / 4 + 100 * (6 - fy.tdiv 400) := by
    omega
  have s1000 : (2400 + fy.tmod 400 - 0) / 100 = fy / 100 + 4 * (6 - fy.tdiv 400) := by
    omega
  have s4000 : (2400 + fy.tmod 400 - 0) / 400 = fy / 400 + (6 - fy.tdiv 400) := by
    omega
  simp only [from_second, wdOfOrd, dval]
  interval_cases fm
  · rw [show (if (1:Int) < 3 then (1:Int) else 0) = 1 by norm_num, o1]
    refine table_cong _ _ (by omega) ?_
    rw [ymd_ord_eq, show (if (1:Int) ≤ 2 then fy - 1 else fy) = fy - 1 by norm_num, c1]
    omega
  · rw [show (if (2:Int) < 3 then (1:Int) else 0) = 1 by norm_num, o2]
    refine table_cong _ _ (by omega) ?_
    rw [ymd_ord_eq, show (if (2:Int) ≤ 2 then fy - 1 else fy) = fy - 1 by norm_num, c2]
    omega
  · rw [show (if (3:Int) < 3 then (1:Int) else 0) = 0 by norm_num, o3]
    refine table_cong _ _ (by omega) ?_
    rw [ymd_ord_eq, show (if (3:Int) ≤ 2 then fy - 1 else fy) = fy by norm_num, c3]
    omega
  · rw [show (if (4:Int) < 3 then (1:Int) else 0) = 0 by norm_num, o4]
    refine table_cong _ _ (by omega) ?_
    rw [ymd_ord_eq, show (if (4:Int) ≤ 2 then fy - 1 else fy) = fy by norm_num, c4]
    omega
  · rw [show (if (5:Int) < 3 then (1:Int) else 0) = 0 by norm_num, o5]
    refine table_cong _ _ (by omega) ?_
    rw [ymd_ord_eq, show (if (5:Int) ≤ 2 then fy - 1 else fy) = fy by norm_num, c5]
    omega
  · rw [show (if (6:Int) < 3 then (1:Int) else 0) = 0 by norm_num, o6]
    refine table_cong _ _ (by omega) ?_
    rw [ymd_ord_eq, show (if (6:Int) ≤ 2 then fy - 1 else fy) = fy by norm_num, c6]
    omega
  · rw [show (if (7:Int) < 3 then (1:Int) else 0) = 0 by norm_num, o7]
    refine table_cong _ _ (by omega) ?_
    rw [ymd_ord_eq, show (if (7:Int) ≤ 2 then fy - 1 else fy) = fy by norm_num, c7]
    omega
  · rw [show (if (8:Int) < 3 then (1:Int) else 0) = 0 by norm_num, o8]
    refine table_cong _ _ (by omega) ?_
    rw [ymd_ord_eq, show (if (8:Int) ≤ 2 then fy - 1 else fy) = fy by norm_num, c8]
    omega
  · rw [show (if (9:Int) < 3 then (1:Int) else 0) = 0 by norm_num, o9]
    refine table_cong _ _ (by omega) ?_
    rw [ymd_ord_eq, show (if (9:Int) ≤ 2 then fy - 1 else fy) = fy by norm_num, c9]
    omega
  · rw [show (if (10:Int) < 3 then (1:Int) else 0) = 0 by norm_num, o10]
    refine table_cong _ _ (by omega) ?_
    rw [ymd_ord_eq, show (if (10:Int) ≤ 2 then fy - 1 else fy) = fy by norm_num, c10]
    omega
  · rw [show (if (11:Int) < 3 then (1:Int) else 0) = 0 by norm_num, o11]
    refine table_cong _ _ (by omega) ?_
    rw [ymd_ord_eq, show (if (11:Int) ≤ 2 then fy - 1 else fy) = fy by norm_num, c11]
    omega
  · rw [show (if (12:Int) < 3 then (1:Int) else 0) = 0 by norm_num, o12]
    refine table_cong _ _ (by omega) ?_
    rw [ymd_ord_eq, show (if (12:Int) ≤ 2 then fy - 1 else fy) = fy by norm_num, c12]
    omega

/-- `WEEKDAYS_FORW` in `next_weekday`. -/
def WEEKDAYS_FORW : List Weekday :=
  [.mon, .tue, .wed, .thu, .fri, .sat, .sun, .mon, .tue, .wed, .thu, .fri, .sat, .sun]

/-- `WEEKDAYS_BACK` in `prev_weekday`. -/
def WEEKDAYS_BACK : List Weekday :=
  [.sun, .sat, .fri, .thu, .wed, .tue, .mon, .sun, .sat, .fri, .thu, .wed, .tue, .mon]

/-- The day offset computed by the scan loops of `next_weekday` in
weekday.rs: `i` is the first index with `WEEKDAYS_FORW[i] = base`, `j`
the first index past `i` with `WEEKDAYS_FORW[j] = wd`, and the offset is
`j - i`. -/
def nextOffset (base wd : Weekday) : Int :=
  let i := WEEKDAYS_FORW.findIdx (· == base)
  let j := i + 1 + (WEEKDAYS_FORW.drop (i + 1)).findIdx (· == wd)
  ((j - i : Nat) : Int)

/-- The day offset computed by the scan loops of `prev_weekday` in
weekday.rs, over the backward table. -/
def prevOffset (base wd : Weekday) : Int :=
  let i := WEEKDAYS_BACK.findIdx (· == base)
  let j := i + 1 + (WEEKDAYS_BACK.drop (i + 1)).findIdx (· == wd)
  ((j - i : Nat) : Int)

/-- `next_weekday` in weekday.rs: `cd.add_diff(j - i)`. -/
def next_weekday (f : Fields) (wd : Weekday) : Fields :=
  add_diff .day f (nextOffset (weekdayF f) wd)

/-- `prev_weekday` in weekday.rs: `cd.sub_diff(j - i)`. -/
def prev_weekday (f : Fields) (wd : Weekday) : Fields :=
  sub_diff .day f (prevOffset (weekdayF f) wd)

/-- The `next_weekday` method of the `impl_weekday_ops!` macro: convert
to `CivilDay` first, then search. -/
def nextWeekdayOn (al : Align) (f : Fields) (wd : Weekday) : Fields :=
  next_weekday (from_fields .day f) wd

/-- The `prev_weekday` method of the `impl_weekday_ops!` macro. -/
def prevWeekdayOn (al : Align) (f : Fields) (wd : Weekday) : Fields :=
  prev_weekday (from_fields .day f) wd

/-- The alignments `impl_weekday_ops!` is invoked for in weekday.rs
(lines 159–162): `CivilSecond`, `CivilMinute`, `CivilHour`, `CivilDay`. -/
def weekdayOpsAligns : List Align := [.second, .minute, .hour, .day]

theorem nextOffset_bounds (b w : Weekday) :
    1 ≤ nextOffset b w ∧ nextOffset b w ≤ 7 ∧ (b = w → nextOffset b w = 7) := by
  cases b <;> cases w <;> decide

theorem prevOffset_bounds (b w : Weekday) :
    1 ≤ prevOffset b w ∧ prevOffset b w ≤ 7 ∧ (b = w → prevOffset b w = 7) := by
  cases b <;> cases w <;> decide

theorem nextOffset_mod (b w : Weekday) : (wdIdx b + nextOffset b w) % 7 = wdIdx w := by
  cases b <;> cases w <;> decide

theorem prevOffset_mod (b w : Weekday) : (wdIdx b - prevOffset b w) % 7 = wdIdx w := by
  cases b <;> cases w <;> decide

/-! ## Comparison (`src/compare.rs` over the derived `Fields` order) -/

/-- `Ord::cmp` on `i64`/`i8` as produced by Rust's derive. -/
def cmpInt (a b : Int) : Ordering :=
  if a < b then .lt else if a = b then .eq else .gt

/-- The derived lexicographic comparison on `Fields` used by every
`PartialOrd`/`Ord` impl in compare.rs (`self.0.cmp(&other.0)`), in field
declaration order `y, m, d, hh, mm, ss`. -/
def fieldsCmp (f g : Fields) : Ordering :=
  (cmpInt f.y g.y).then ((cmpInt f.m g.m).then ((cmpInt f.d g.d).then
    ((cmpInt f.hh g.hh).then ((cmpInt f.mm g.mm).then (cmpInt f.ss g.ss)))))

/-- Strict six-field lexicographic order, written out. -/
def fieldsLexLt (f g : Fields) : Prop :=
  f.y < g.y ∨ (f.y = g.y ∧ (f.m < g.m ∨ (f.m = g.m ∧ (f.d < g.d ∨ (f.d = g.d ∧
    (f.hh < g.hh ∨ (f.hh = g.hh ∧ (f.mm < g.mm ∨ (f.mm = g.mm ∧ f.ss < g.ss)))))))))

instance (f g : Fields) : Decidable (fieldsLexLt f g) := by
  unfold fieldsLexLt
  infer_instance

theorem cmpInt_cases (a b : Int) :
    (cmpInt a b = .eq ↔ a = b) ∧ (cmpInt a b = .lt ↔ a < b) ∧ (cmpInt a b = .gt ↔ b < a) := by
  unfold cmpInt
  split
  · refine ⟨?_, ?_, ?_⟩ <;> constructor <;> intro h <;> first | omega | simp_all
  · split
    · refine ⟨?_, ?_, ?_⟩ <;> constructor <;> intro h <;> first | omega | simp_all
    · refine ⟨?_, ?_, ?_⟩ <;> constructor <;> intro h <;> first | omega | simp_all

theorem then_cases (o p : Ordering) :
    (o.then p = .eq ↔ o = .eq ∧ p = .eq) ∧
    (o.then p = .lt ↔ o = .lt ∨ (o = .eq ∧ p = .lt)) ∧
    (o.then p = .gt ↔ o = .gt ∨ (o = .eq ∧ p = .gt)) := by
  cases o <;> cases p <;> refine ⟨?_, ?_, ?_⟩ <;> decide

/-- `fieldsCmp` returns `eq` exactly on equal six-field records. -/
theorem fieldsCmp_eq_iff (f g : Fields) :
    fieldsCmp f g = .eq ↔
      (f.y = g.y ∧ f.m = g.m ∧ f.d = g.d ∧ f.hh = g.hh ∧ f.mm = g.mm ∧ f.ss = g.ss) := by
  unfold fieldsCmp
  rw [(then_cases _ _).1, (then_cases _ _).1, (then_cases _ _).1, (then_cases _ _).1,
    (then_cases _ _).1, (cmpInt_cases _ _).1, (cmpInt_cases _ _).1, (cmpInt_cases _ _).1,
    (cmpInt_cases _ _).1, (cmpInt_cases _ _).1, (cmpInt_cases _ _).1]

/-- `fieldsCmp` returns `lt` exactly on the lexicographic order. -/
theorem fieldsCmp_lt_iff (f g : Fields) : fieldsCmp f g = .lt ↔ fieldsLexLt f g := by
  unfold fieldsCmp fieldsLexLt
  rw [(then_cases _ _).2.1]
  rw [(then_cases _ _).2.1]
  rw [(then_cases _ _).2.1]
  rw [(then_cases _ _).2.1]
  rw [(then_cases _ _).2.1]
  simp only [(cmpInt_cases _ _).1, (cmpInt_cases _ _).2.1]

/-- `fieldsCmp` returns `gt` exactly on the reversed lexicographic
order. -/
theorem fieldsCmp_gt_iff (f g : Fields) : fieldsCmp f g = .gt ↔ fieldsLexLt g f := by
  unfold fieldsCmp fieldsLexLt
  rw [(then_cases _ _).2.2]
  rw [(then_cases _ _).2.2]
  rw [(then_cases _ _).2.2]
  rw [(then_cases _ _).2.2]
  rw [(then_cases _ _).2.2]
  simp only [(cmpInt_cases _ _).1, (cmpInt_cases _ _).2.2]
  tauto

/-! ## Supporting lemmas for the claims -/

/-- At years already reduced modulo 400, the epoch ordinal lies in a small
fixed window (no extreme-year magnitudes remain). -/
theorem ymd_ord_small_bounds (y m d : Int) (h1 : 1 ≤ m) (h2 : m ≤ 12)
    (h3 : 1 ≤ d) (h4 : d ≤ 31) (hy1 : -399 ≤ y) (hy2 : y ≤ 399) :
    -866000 ≤ ymd_ord y m d ∧ ymd_ord y m d ≤ -573000 := by
  obtain ⟨c1, c2, c3, c4, c5, c6, c7, c8, c9, c10, c11, c12⟩ := doyc_vals
  rw [ymd_ord_eq]
  interval_cases m <;>
    norm_num [c1, c2, c3, c4, c5, c6, c7, c8, c9, c10, c11, c12] <;>
    omega

/-- The month-carry block of `n_mon` (truncated division plus sign
correction plus the `m == 12` early exit) agrees with the floor-division
carry rule. -/
theorem n_mon_floor (y m : Int) :
    n_mon_y y m = y + (m - 1) / 12 ∧ n_mon_m m = (m - 1) % 12 + 1 := by
  have t := tdiv_tmod_fact m 12 (by norm_num)
  unfold n_mon_y n_mon_m
  by_cases h12 : m ≠ 12
  · rw [if_pos h12, if_pos h12]
    constructor <;> split <;> omega
  · rw [if_neg h12, if_neg h12]
    constructor <;> omega

/-- Index of the weekday assigned to ordinal `k`. -/
theorem wdIdx_wdOfOrd (k : Int) : wdIdx (wdOfOrd k) = (k + 3) % 7 :=
  wdIdx_WEEK (k + 3)

/-- Structure equality of `Fields` is equality of the six projections. -/
theorem fields_eq_iff (f g : Fields) :
    f = g ↔ (f.y = g.y ∧ f.m = g.m ∧ f.d = g.d ∧ f.hh = g.hh ∧ f.mm = g.mm ∧ f.ss = g.ss) := by
  constructor
  · intro h
    subst h
    exact ⟨rfl, rfl, rfl, rfl, rfl, rfl⟩
  · obtain ⟨fy, fm, fd, fhh, fmm, fss⟩ := f
    obtain ⟨gy, gm, gd, ghh, gmm, gss⟩ := g
    intro h
    simp only at h
    simp [h.1, h.2.1, h.2.2.1, h.2.2.2.1, h.2.2.2.2.1, h.2.2.2.2.2]

/-- §4.1 of the specification states the month carry as mathematical
floor division: `y += floor((m-1)/12)`.  Written from the spec's words,
for comparison with the source's `n_mon_y`. -/
def spec_month_carry_y (y m : Int) : Int := y + (m - 1) / 12

/-- §4.1's normalized month, `((m-1) mod 12) + 1`, with a nonnegative
remainder.  Written from the spec's words, for comparison with the
source's `n_mon_m`. -/
def spec_month_carry_m (m : Int) : Int := (m - 1) % 12 + 1

/-! ## The claims -/

/-- C1: for every pair of canonical Gregorian dates whose true signed day
difference is representable in the signed 64-bit scalar type,
`day_difference` returns exactly that true difference; moreover the
mod-400 shifted intermediates it works on (the delta of in-cycle ordinals
and the 400-aligned year difference) remain small / representable even at
extreme year magnitudes, where the unshifted epoch ordinals themselves
would overflow 64 bits. -/
theorem claim_C1 (y1 m1 d1 y2 m2 d2 : Int)
    (hc1 : canonicalDate y1 m1 d1) (hc2 : canonicalDate y2 m2 d2)
    (hrep : -9223372036854775808 ≤ ymd_ord y1 m1 d1 - ymd_ord y2 m2 d2 ∧
      ymd_ord y1 m1 d1 - ymd_ord y2 m2 d2 ≤ 9223372036854775807) :
    day_difference y1 m1 d1 y2 m2 d2 = ymd_ord y1 m1 d1 - ymd_ord y2 m2 d2 ∧
    (-9223372036854775808 ≤ day_difference y1 m1 d1 y2 m2 d2 ∧
      day_difference y1 m1 d1 y2 m2 d2 ≤ 9223372036854775807) ∧
    (-293000 ≤ ymd_ord (y1.tmod 400) m1 d1 - ymd_ord (y2.tmod 400) m2 d2 ∧
      ymd_ord (y1.tmod 400) m1 d1 - ymd_ord (y2.tmod 400) m2 d2 ≤ 293000) ∧
    (-9223372036854775808 ≤ (y1 - y1.tmod 400) - (y2 - y2.tmod 400) ∧
      (y1 - y1.tmod 400) - (y2 - y2.tmod 400) ≤ 9223372036854775807) := by
  obtain ⟨a1, a2, a3, a4⟩ := hc1
  obtain ⟨b1, b2, b3, b4⟩ := hc2
  have t1 := tdiv_tmod_fact y1 400 (by norm_num)
  have t2 := tdiv_tmod_fact y2 400 (by norm_num)
  have hd1 := days_per_month_bounds y1 m1
  have hd2 := days_per_month_bounds y2 m2
  have s1 := ymd_ord_small_bounds (y1.tmod 400) m1 d1 a1 a2 a3 (by omega) (by omega) (by omega)
  have s2 := ymd_ord_small_bounds (y2.tmod 400) m2 d2 b1 b2 b3 (by omega) (by omega) (by omega)
  have e1 : ymd_ord y1 m1 d1 = ymd_ord (y1.tmod 400) m1 d1 + 146097 * y1.tdiv 400 := by
    have h := ymd_ord_400 (y1.tmod 400) m1 d1 (y1.tdiv 400)
    have h2 : y1.tmod 400 + 400 * y1.tdiv 400 = y1 := by omega
    rw [h2] at h
    omega
  have e2 : ymd_ord y2 m2 d2 = ymd_ord (y2.tmod 400) m2 d2 + 146097 * y2.tdiv 400 := by
    have h := ymd_ord_400 (y2.tmod 400) m2 d2 (y2.tdiv 400)
    have h2 : y2.tmod 400 + 400 * y2.tdiv 400 = y2 := by omega
    rw [h2] at h
    omega
  have hex := day_difference_exact y1 m1 d1 y2 m2 d2
  exact ⟨hex, by omega, by omega, by omega⟩

/-- C1 witness: at the extreme year `i64::MAX`, the difference between
December 31 and January 1 of that year is computed exactly (364 days). -/
theorem claim_C1_witness :
    canonicalDate 9223372036854775807 12 31 ∧ canonicalDate 9223372036854775807 1 1 ∧
    day_difference 9223372036854775807 12 31 9223372036854775807 1 1 =
      ymd_ord 9223372036854775807 12 31 - ymd_ord 9223372036854775807 1 1 :=
  ⟨by decide, by decide,
    (claim_C1 9223372036854775807 12 31 9223372036854775807 1 1
      (by decide) (by decide) (by decide)).1⟩

/-- C2: difference is antisymmetric at every one of the six alignments:
`a - b = -(b - a)` for arbitrary fields. -/
theorem claim_C2 (al : Align) (a b : Fields) :
    differenceF al a b = -differenceF al b a := by
  rw [differenceF_eq, differenceF_eq]
  ring

/-- C3: for every alignment, every aligned value `a` and every scalar `n`
(including `n = DiffType::MIN`, handled by `sub_diff`'s two-step
decomposition), `(a + n) - a = n` and `(a - n) + n = a`. -/
theorem claim_C3 (al : Align) (a : Fields) (n : Int) (h : aligned al a) :
    differenceF al (add_diff al a n) a = n ∧ add_diff al (sub_diff al a n) n = a := by
  obtain ⟨h1, h2⟩ := add_diff_spec al a n h
  constructor
  · rw [differenceF_eq, h2]
    ring
  · obtain ⟨s1, s2⟩ := sub_diff_spec al a n h
    obtain ⟨u1, u2⟩ := add_diff_spec al (sub_diff al a n) n s1
    refine alignVal_inj al _ a u1 h ?_
    rw [u2, s2]
    ring

/-- C3 witness: at day granularity from 1970-01-01 with
`n = DiffType::MIN`, both inverse identities hold. -/
theorem claim_C3_witness :
    aligned .day { y := 1970, m := 1, d := 1, hh := 0, mm := 0, ss := 0 } ∧
    (differenceF .day
        (add_diff .day { y := 1970, m := 1, d := 1, hh := 0, mm := 0, ss := 0 } DiffTypeMin)
        { y := 1970, m := 1, d := 1, hh := 0, mm := 0, ss := 0 } = DiffTypeMin ∧
      add_diff .day
        (sub_diff .day { y := 1970, m := 1, d := 1, hh := 0, mm := 0, ss := 0 } DiffTypeMin)
        DiffTypeMin = { y := 1970, m := 1, d := 1, hh := 0, mm := 0, ss := 0 }) :=
  ⟨by decide,
    claim_C3 .day { y := 1970, m := 1, d := 1, hh := 0, mm := 0, ss := 0 } DiffTypeMin
      (by decide)⟩

/-- C4: normalization is idempotent: `n_sec` returns every
already-canonical six-field input unchanged, including days 29–31 that
fall outside the `1 ≤ d ≤ 28` fast path. -/
theorem claim_C4 (f : Fields) (h : canonical f) :
    n_sec f.y f.m f.d f.hh f.mm f.ss = f := by
  obtain ⟨s1, s2⟩ := n_sec_spec f.y f.m f.d f.hh f.mm f.ss
  obtain ⟨⟨c1, c2, c3, c4⟩, c5, c6, c7, c8, c9, c10⟩ := h
  obtain ⟨hy, hm⟩ := n_mon_id f.y f.m c1 c2
  rw [hy, hm] at s1
  refine canonical_inj _ f s2 ⟨⟨c1, c2, c3, c4⟩, c5, c6, c7, c8, c9, c10⟩ ?_
  rw [s1]
  unfold sval mval hval dval
  ring

/-- C4 witness: the canonical leap-day instant 2020-02-29 23:59:59 (day
29, outside the fast path) is returned unchanged. -/
theorem claim_C4_witness :
    canonical { y := 2020, m := 2, d := 29, hh := 23, mm := 59, ss := 59 } ∧
    n_sec 2020 2 29 23 59 59 =
      { y := 2020, m := 2, d := 29, hh := 23, mm := 59, ss := 59 } :=
  ⟨by decide,
    claim_C4 { y := 2020, m := 2, d := 29, hh := 23, mm := 59, ss := 59 } (by decide)⟩

/-- C5: month normalization follows the floor-division carry rule: for
every year and every (possibly negative, arbitrarily out-of-range) month,
with the remaining fields canonical and the day at most 28, `n_mon`
yields year `y + ⌊(m-1)/12⌋` and month `((m-1) mod 12) + 1` and leaves
the other four fields unchanged. -/
theorem claim_C5 (y m d hh mm ss : Int) (hd : 1 ≤ d ∧ d ≤ 28)
    (hhh : 0 ≤ hh ∧ hh < 24) (hmm : 0 ≤ mm ∧ mm < 60) (hss : 0 ≤ ss ∧ ss < 60) :
    n_mon y m d 0 hh mm ss =
      { y := spec_month_carry_y y m, m := spec_month_carry_m m, d := d,
        hh := hh, mm := mm, ss := ss } := by
  obtain ⟨hfy, hfm⟩ := n_mon_floor y m
  obtain ⟨hm1, hm2, hsum⟩ := n_mon_char y m
  obtain ⟨s1, s2, s3, s4, s5, s6, s7, s8⟩ := n_mon_spec y m d 0 hh mm ss
  have hdp := days_per_month_bounds (n_mon_y y m) (n_mon_m m)
  have htc : canonical
      { y := n_mon_y y m, m := n_mon_m m, d := d, hh := hh, mm := mm, ss := ss } := by
    refine ⟨⟨hm1, hm2, hd.1, ?_⟩, hhh.1, hhh.2, hmm.1, hmm.2, hss.1, hss.2⟩
    dsimp only
    omega
  have hcan : canonical (n_mon y m d 0 hh mm ss) :=
    ⟨⟨s2, s3, s4, s5⟩, by omega, by omega, by omega, by omega, by omega, by omega⟩
  have heq : sval (n_mon y m d 0 hh mm ss) =
      sval { y := n_mon_y y m, m := n_mon_m m, d := d, hh := hh, mm := mm, ss := ss } := by
    unfold sval mval hval dval
    dsimp only
    rw [s6, s7, s8]
    omega
  have hfin := canonical_inj _ _ hcan htc heq
  rw [hfin, hfy, hfm]
  rfl

/-- C5 witness: month -7 of 2020 carries to May 2019 with the other
fields intact. -/
theorem claim_C5_witness :
    ((1:Int) ≤ 15 ∧ (15:Int) ≤ 28) ∧ ((0:Int) ≤ 3 ∧ (3:Int) < 24) ∧
    ((0:Int) ≤ 4 ∧ (4:Int) < 60) ∧ ((0:Int) ≤ 5 ∧ (5:Int) < 60) ∧
    n_mon 2020 (-7) 15 0 3 4 5 =
      { y := spec_month_carry_y 2020 (-7), m := spec_month_carry_m (-7), d := 15,
        hh := 3, mm := 4, ss := 5 } :=
  ⟨by decide, by decide, by decide, by decide,
    claim_C5 2020 (-7) 15 3 4 5 (by decide) (by decide) (by decide) (by decide)⟩

/-- C6: alignment pinning is an invariant preserved by every operation:
construction, default, realignment, addition, subtraction and weekday
navigation all produce values whose fields strictly inferior to the
alignment sit at their minimum — e.g. a month value always has day 1 and
zero time fields, and a year value additionally has month 1. -/
theorem claim_C6 :
    (∀ (al : Align) (y m d hh mm ss : Int), isPinned al (from_ymd_hms al y m d hh mm ss)) ∧
    (∀ al : Align, isPinned al (defaultCivil al)) ∧
    (∀ (al : Align) (f : Fields), isPinned al (realign al f)) ∧
    (∀ (al : Align) (f : Fields) (n : Int), isPinned al (add_diff al f n)) ∧
    (∀ (al : Align) (f : Fields) (n : Int), isPinned al (sub_diff al f n)) ∧
    (∀ (f : Fields) (wd : Weekday), isPinned .day (next_weekday f wd)) ∧
    (∀ (f : Fields) (wd : Weekday), isPinned .day (prev_weekday f wd)) ∧
    (∀ y m : Int, (newMonth y m).d = 1 ∧ (newMonth y m).hh = 0 ∧ (newMonth y m).mm = 0 ∧
      (newMonth y m).ss = 0) ∧
    (∀ y : Int, (newYear y).m = 1 ∧ (newYear y).d = 1 ∧ (newYear y).hh = 0 ∧
      (newYear y).mm = 0 ∧ (newYear y).ss = 0) := by
  have hsub : ∀ (al : Align) (f : Fields) (n : Int), isPinned al (sub_diff al f n) := by
    intro al f n
    unfold sub_diff
    split
    · exact alignF_pinned al _
    · exact alignF_pinned al _
  refine ⟨fun al y m d hh mm ss => alignF_pinned al _,
    fun al => alignF_pinned al _,
    fun al f => alignF_pinned al _,
    fun al f n => alignF_pinned al _,
    hsub,
    fun f wd => alignF_pinned .day _,
    fun f wd => hsub .day f _,
    fun y m => alignF_pinned .month (n_sec y m 1 0 0 0),
    fun y => alignF_pinned .year (n_sec y 1 1 0 0 0)⟩

/-- C7: weekday navigation is strict and bounded: from any day-aligned
value, `next_weekday` / `prev_weekday` land on the requested weekday,
move by 1 to 7 days (never 0, even if the start already matches), and
move by exactly 7 when the target equals the start's weekday. -/
theorem claim_C7 (f : Fields) (wd : Weekday) (h : aligned .day f) :
    (1 ≤ differenceF .day (next_weekday f wd) f ∧ differenceF .day (next_weekday f wd) f ≤ 7) ∧
    (1 ≤ differenceF .day f (prev_weekday f wd) ∧ differenceF .day f (prev_weekday f wd) ≤ 7) ∧
    weekdayF (next_weekday f wd) = wd ∧
    weekdayF (prev_weekday f wd) = wd ∧
    next_weekday f wd ≠ f ∧ prev_weekday f wd ≠ f ∧
    (wd = weekdayF f →
      differenceF .day (next_weekday f wd) f = 7 ∧
        differenceF .day f (prev_weekday f wd) = 7) := by
  obtain ⟨hc, hp⟩ := h
  obtain ⟨nb1, nb2, nb3⟩ := nextOffset_bounds (weekdayF f) wd
  obtain ⟨pb1, pb2, pb3⟩ := prevOffset_bounds (weekdayF f) wd
  obtain ⟨⟨hNc, hNp⟩, hNv⟩ := add_diff_spec .day f (nextOffset (weekdayF f) wd) ⟨hc, hp⟩
  obtain ⟨⟨hPc, hPp⟩, hPv⟩ := sub_diff_spec .day f (prevOffset (weekdayF f) wd) ⟨hc, hp⟩
  have hNv' : dval (add_diff .day f (nextOffset (weekdayF f) wd)) =
      dval f + nextOffset (weekdayF f) wd := hNv
  have hPv' : dval (sub_diff .day f (prevOffset (weekdayF f) wd)) =
      dval f - prevOffset (weekdayF f) wd := hPv
  have hwdf : weekdayF f = wdOfOrd (dval f) := by
    rw [weekdayF_eq]
    exact from_second_eq f hc.1.1 hc.1.2.1 hc.1.2.2.1
  have h3 : wdIdx (weekdayF f) = (dval f + 3) % 7 := by
    rw [hwdf, wdIdx_wdOfOrd]
  have hNwd : weekdayF (next_weekday f wd) = wd := by
    unfold next_weekday
    rw [weekdayF_eq]
    rw [from_second_eq _ hNc.1.1 hNc.1.2.1 hNc.1.2.2.1]
    refine wdIdx_inj _ _ ?_
    rw [wdIdx_wdOfOrd, hNv']
    have h2 := nextOffset_mod (weekdayF f) wd
    omega
  have hPwd : weekdayF (prev_weekday f wd) = wd := by
    unfold prev_weekday
    rw [weekdayF_eq]
    rw [from_second_eq _ hPc.1.1 hPc.1.2.1 hPc.1.2.2.1]
    refine wdIdx_inj _ _ ?_
    rw [wdIdx_wdOfOrd, hPv']
    have h2 := prevOffset_mod (weekdayF f) wd
    omega
  have hNd : differenceF .day (next_weekday f wd) f = nextOffset (weekdayF f) wd := by
    unfold next_weekday
    rw [differenceF_eq]
    have : alignVal .day (add_diff .day f (nextOffset (weekdayF f) wd)) =
        dval f + nextOffset (weekdayF f) wd := hNv'
    rw [this]
    show dval f + nextOffset (weekdayF f) wd - dval f = _
    ring
  have hPd : differenceF .day f (prev_weekday f wd) = prevOffset (weekdayF f) wd := by
    unfold prev_weekday
    rw [differenceF_eq]
    have : alignVal .day (sub_diff .day f (prevOffset (weekdayF f) wd)) =
        dval f - prevOffset (weekdayF f) wd := hPv'
    rw [this]
    show dval f - (dval f - prevOffset (weekdayF f) wd) = _
    ring
  refine ⟨⟨by omega, by omega⟩, ⟨by omega, by omega⟩, hNwd, hPwd, ?_, ?_, ?_⟩
  · intro heq
    have hcongr : dval (next_weekday f wd) = dval f := congrArg dval heq
    unfold next_weekday at hcongr
    omega
  · intro heq
    have hcongr : dval (prev_weekday f wd) = dval f := congrArg dval heq
    unfold prev_weekday at hcongr
    omega
  · intro hwd
    have hn7 := nb3 hwd.symm
    have hp7 := pb3 hwd.symm
    omega

/-- C7 witness: from Thursday 1970-01-01 the next Thursday is exactly 7
days later and falls on a Thursday. -/
theorem claim_C7_witness :
    aligned .day { y := 1970, m := 1, d := 1, hh := 0, mm := 0, ss := 0 } ∧
    weekdayF
        (next_weekday { y := 1970, m := 1, d := 1, hh := 0, mm := 0, ss := 0 } .thu) =
      .thu ∧
    differenceF .day
        (next_weekday { y := 1970, m := 1, d := 1, hh := 0, mm := 0, ss := 0 } .thu)
        { y := 1970, m := 1, d := 1, hh := 0, mm := 0, ss := 0 } = 7 :=
  ⟨by decide,
    (claim_C7 { y := 1970, m := 1, d := 1, hh := 0, mm := 0, ss := 0 } .thu
      (by decide)).2.2.1,
    ((claim_C7 { y := 1970, m := 1, d := 1, hh := 0, mm := 0, ss := 0 } .thu
      (by decide)).2.2.2.2.2.2 (by decide)).1⟩

/-- C8 counterexample: `impl_weekday_ops!` is not invoked for
`CivilMonth` or `CivilYear` (weekday.rs lines 159–162), so the month and
year alignments provide no weekday navigation, contrary to the claim
that all six alignments do. -/
theorem claim_C8_counterexample :
    Align.month ∉ weekdayOpsAligns ∧ Align.year ∉ weekdayOpsAligns := by
  decide

/-- C8 (amended): weekday navigation is available exactly on the
second, minute, hour and day alignments; every such call converts to a
`CivilDay` first and returns a day-aligned result. -/
theorem claim_C8 (al : Align) (f : Fields) (wd : Weekday) :
    (al ∈ weekdayOpsAligns ↔
      (al = .second ∨ al = .minute ∨ al = .hour ∨ al = .day)) ∧
    isPinned .day (nextWeekdayOn al f wd) ∧ isPinned .day (prevWeekdayOn al f wd) ∧
    nextWeekdayOn al f wd = next_weekday (from_fields .day f) wd ∧
    prevWeekdayOn al f wd = prev_weekday (from_fields .day f) wd := by
  refine ⟨by cases al <;> decide, ?_, ?_, rfl, rfl⟩
  · unfold nextWeekdayOn next_weekday
    exact alignF_pinned .day _
  · unfold prevWeekdayOn prev_weekday sub_diff
    split
    · exact alignF_pinned .day _
    · exact alignF_pinned .day _

/-- C9: comparison is the derived six-field lexicographic order on the
shared `Fields` payload, identical for every (cross-)alignment pair:
`eq` exactly on field-wise equal values, `lt`/`gt` exactly on the
lexicographic order, and that order is total (trichotomous, irreflexive,
transitive). -/
theorem claim_C9 :
    (∀ f g : Fields, fieldsCmp f g = .eq ↔ f = g) ∧
    (∀ f g : Fields, fieldsCmp f g = .eq ↔
      (f.y = g.y ∧ f.m = g.m ∧ f.d = g.d ∧ f.hh = g.hh ∧ f.mm = g.mm ∧ f.ss = g.ss)) ∧
    (∀ f g : Fields, fieldsCmp f g = .lt ↔ fieldsLexLt f g) ∧
    (∀ f g : Fields, fieldsCmp f g = .gt ↔ fieldsLexLt g f) ∧
    (∀ f g : Fields, fieldsCmp f g = .eq ∨ fieldsCmp f g = .lt ∨ fieldsCmp f g = .gt) ∧
    (∀ f : Fields, ¬ fieldsLexLt f f) ∧
    (∀ a b c : Fields, fieldsLexLt a b → fieldsLexLt b c → fieldsLexLt a c) := by
  refine ⟨?_, fieldsCmp_eq_iff, fieldsCmp_lt_iff, fieldsCmp_gt_iff, ?_, ?_, ?_⟩
  · intro f g
    rw [fieldsCmp_eq_iff, fields_eq_iff]
  · intro f g
    cases fieldsCmp f g
    · exact Or.inr (Or.inl rfl)
    · exact Or.inl rfl
    · exact Or.inr (Or.inr rfl)
  · intro f
    unfold fieldsLexLt
    omega
  · intro a b c h1 h2
    unfold fieldsLexLt at h1 h2 ⊢
    omega

/-- C10: the weekday computation reads only the date fields: realigning
to day granularity (the payload of `CivilDay::from`) does not change the
reported weekday, and neither do the hour, minute and second fields. -/
theorem claim_C10 :
    (∀ f : Fields, weekdayF (realign .day f) = weekdayF f) ∧
    (∀ y m d hh1 mm1 ss1 hh2 mm2 ss2 : Int,
      weekdayF { y := y, m := m, d := d, hh := hh1, mm := mm1, ss := ss1 } =
        weekdayF { y := y, m := m, d := d, hh := hh2, mm := mm2, ss := ss2 }) := by
  constructor
  · intro f
    rfl
  · intro y m d hh1 mm1 ss1 hh2 mm2 ss2
    rfl

end CivilTime
